import Mathlib

/-!
# bigbucket-go: the authenticated request path

A shallow embedding of `auth.go` and `utils.go` of the bigbucket Go client:
`jwtExpired`, `getGcpAuthToken`, `httpRequest`, `constructUrl` and
`constructError`, together with models of the Go standard-library routines
these functions call (`strings.Split`, `encoding/base64`, `encoding/json`,
`unicode/utf8`, `net/textproto`, `net/http`, `net/url`, `fmt`).

Conventions.

* Go strings and byte slices are lists of bytes (`Bytes`); Go's `int` is the
  64-bit signed integer, kept as an `Int` and wrapped where the code adds.
* A Go function with a result and an `error` is an `Except`; `jwtExpired`,
  which returns a verdict next to its error, returns the pair; an index out
  of range is the outcome `panic`.
* The network and the clock are the fields of a `World`; `httpRequest`
  returns a `Run`, which records the client afterwards, the calls of
  `getGcpAuthToken` and the request handed to `httpClient.Do`.
* The standard library is modelled as of Go 1.21: the JSON scanner with its
  nesting limit, `url.Parse` with `OmitHost`. Later releases check the host
  of an address more strictly (the text between brackets, colons outside
  them) and so accept fewer addresses; the statements about `constructUrl`
  speak of the addresses that `url.Parse` accepts. Error values keep their
  kind and drop offsets and quoted input. A request body is kept as the
  mapping that `json.Marshal` serialises, which cannot fail for a map of
  strings.

The definitions come first, then the lemmas and the theorems of the claims
C1 to C10.
-/

namespace Bigbucket

/-! ## Bytes and outcomes -/

/-- A Go string or byte slice: a finite sequence of bytes. -/
abbrev Bytes := List Nat

/-- The bytes of an ASCII string literal. -/
def ascii (s : String) : Bytes := s.toList.map Char.toNat

/-- Go's 64-bit signed wrap-around of a mathematical integer. -/
def wrap64 (x : Int) : Int := (x + 2 ^ 63) % 2 ^ 64 - 2 ^ 63

/-- Error values the request path can produce. -/
inductive GoError where
  /-- A `base64.CorruptInputError`. -/
  | corruptInput
  /-- A `json` syntax error, `io.EOF` or `io.ErrUnexpectedEOF` while reading a value. -/
  | jsonRead
  /-- A `*json.UnmarshalTypeError`. -/
  | jsonType
  /-- A `*url.Error` from `url.Parse`. -/
  | urlParse
  /-- An error from `http.NewRequest` (invalid method). -/
  | newRequest
  /-- An error from `http.Client.Do` or from reading a body, named by the environment. -/
  | transport (code : Nat)
  /-- The value of `errors.New(text)`. -/
  | errorsNew (text : Bytes)
  deriving DecidableEq, Repr

deriving instance DecidableEq for Except

/-- What a Go call does: it returns, or it panics at run time. -/
inductive Outcome (α : Type) where
  | ret (a : α)
  | panic
  deriving DecidableEq, Repr

/-! ## strings.Split -/

/-- The Go call `strings.Split(s, string(sep))` for a one-byte separator. -/
def stringsSplit (sep : Nat) : Bytes → List Bytes
  | [] => [[]]
  | c :: cs =>
    if c = sep then [] :: stringsSplit sep cs
    else match stringsSplit sep cs with
      | [] => [[c]]
      | s :: ss => (c :: s) :: ss

/-! ## encoding/base64, the padded URL alphabet -/

/-- The alphabet of `base64.URLEncoding`. -/
def encodeURL : Bytes :=
  ascii "ABCDEFGHIJKLMNOPQRSTUVWXYZabcdefghijklmnopqrstuvwxyz0123456789-_"

/-- The character of a 6-bit value. -/
def b64Char (i : Nat) : Nat := encodeURL.getD i 0

/-- The decode map of the encoding: the 6-bit value of an alphabet character. -/
def b64Val (c : Nat) : Option Nat :=
  let i := encodeURL.indexOf c
  if i < 64 then some i else none

/-- The Go call `base64.URLEncoding.EncodeToString`. -/
def base64Encode : Bytes → Bytes
  | [] => []
  | [x] => [b64Char (x / 4), b64Char (x % 4 * 16), 61, 61]
  | [x, y] => [b64Char (x / 4), b64Char (x % 4 * 16 + y / 16), b64Char (y % 16 * 4), 61]
  | x :: y :: z :: rest =>
    b64Char (x / 4) :: b64Char (x % 4 * 16 + y / 16) :: b64Char (y % 16 * 4 + z / 64)
      :: b64Char (z % 64) :: base64Encode rest

/-- The quanta of a padded base64 text whose line breaks were dropped:
    four characters give three bytes, and only the last quantum may end in
    one or two `=`; low bits left over in its last character are not
    checked. Every other shape is a `CorruptInputError` (`none`). -/
def decodeQuanta : Bytes → Option Bytes
  | [] => some []
  | a :: b :: c :: d :: rest =>
    match b64Val a, b64Val b with
    | some va, some vb =>
      if c = 61 then
        if d = 61 ∧ rest = [] then some [(va * 4 + vb / 16) % 256] else none
      else
        match b64Val c with
        | none => none
        | some vc =>
          if d = 61 then
            if rest = [] then some [(va * 4 + vb / 16) % 256, (vb * 16 + vc / 4) % 256]
            else none
          else
            match b64Val d, decodeQuanta rest with
            | some vd, some out =>
              some ((va * 4 + vb / 16) % 256 :: (vb * 16 + vc / 4) % 256
                :: (vc * 64 + vd) % 256 :: out)
            | _, _ => none
    | _, _ => none
  | _ => none

/-- The Go call `base64.URLEncoding.DecodeString`: carriage returns and line
    feeds are skipped, every other byte outside the alphabet and every
    missing or misplaced padding is a `CorruptInputError`. -/
def base64DecodeString (s : Bytes) : Except GoError Bytes :=
  match decodeQuanta (s.filter (fun c => c ≠ 10 ∧ c ≠ 13)) with
  | some out => .ok out
  | none => .error .corruptInput

/-! ## unicode/utf8 -/

/-- The Go call `utf8.DecodeRune`: the first rune of `p` and its width in
    bytes; an ill-formed or truncated sequence gives `(0xFFFD, 1)`. -/
def decodeRune : Bytes → Nat × Nat
  | [] => (0xFFFD, 0)
  | p0 :: ps =>
    if p0 < 0x80 then (p0, 1)
    else if p0 < 0xC2 then (0xFFFD, 1)
    else if p0 < 0xE0 then
      match ps with
      | b1 :: _ =>
        if 0x80 ≤ b1 ∧ b1 ≤ 0xBF then (p0 % 32 * 64 + b1 % 64, 2) else (0xFFFD, 1)
      | _ => (0xFFFD, 1)
    else if p0 < 0xF0 then
      let lo := if p0 = 0xE0 then 0xA0 else 0x80
      let hi := if p0 = 0xED then 0x9F else 0xBF
      match ps with
      | b1 :: b2 :: _ =>
        if lo ≤ b1 ∧ b1 ≤ hi ∧ 0x80 ≤ b2 ∧ b2 ≤ 0xBF then
          (p0 % 16 * 4096 + b1 % 64 * 64 + b2 % 64, 3)
        else (0xFFFD, 1)
      | _ => (0xFFFD, 1)
    else if p0 < 0xF5 then
      let lo := if p0 = 0xF0 then 0x90 else 0x80
      let hi := if p0 = 0xF4 then 0x8F else 0xBF
      match ps with
      | b1 :: b2 :: b3 :: _ =>
        if lo ≤ b1 ∧ b1 ≤ hi ∧ 0x80 ≤ b2 ∧ b2 ≤ 0xBF ∧ 0x80 ≤ b3 ∧ b3 ≤ 0xBF then
          (p0 % 8 * 262144 + b1 % 64 * 4096 + b2 % 64 * 64 + b3 % 64, 4)
        else (0xFFFD, 1)
      | _ => (0xFFFD, 1)
    else (0xFFFD, 1)

/-- The Go call `utf8.EncodeRune`: surrogates and values past U+10FFFF are
    written as U+FFFD. -/
def encodeRune (r : Nat) : Bytes :=
  if r < 0x80 then [r]
  else if r < 0x800 then [0xC0 + r / 64, 0x80 + r % 64]
  else if (0xD800 ≤ r ∧ r < 0xE000) ∨ 0x10FFFF < r then [0xEF, 0xBF, 0xBD]
  else if r < 0x10000 then [0xE0 + r / 4096, 0x80 + r / 64 % 64, 0x80 + r % 64]
  else [0xF0 + r / 262144, 0x80 + r / 4096 % 64, 0x80 + r / 64 % 64, 0x80 + r % 64]

/-! ## encoding/json: the scanner -/

/-- The value of a hexadecimal digit. -/
def hexVal (c : Nat) : Option Nat :=
  if 48 ≤ c ∧ c ≤ 57 then some (c - 48)
  else if 97 ≤ c ∧ c ≤ 102 then some (c - 97 + 10)
  else if 65 ≤ c ∧ c ≤ 70 then some (c - 65 + 10)
  else none

/-- The helper `getu4` of the decoder: the code unit of a leading `\uXXXX`. -/
def getu4 : Bytes → Option Nat
  | 92 :: 117 :: a :: b :: c :: d :: _ =>
    match hexVal a, hexVal b, hexVal c, hexVal d with
    | some va, some vb, some vc, some vd => some (va * 4096 + vb * 256 + vc * 16 + vd)
    | _, _, _, _ => none
  | _ => none

/-- One escape sequence of `unquoteBytes`, given the bytes after its
    backslash: the bytes it stands for and how many of the given bytes it
    takes. A `\\u` escape of a high surrogate takes the low surrogate that
    follows it; a surrogate without its partner becomes U+FFFD. -/
def unquoteEscape (afterBackslash : Bytes) : Option (Bytes × Nat) :=
  match afterBackslash with
  | [] => none
  | e :: _ =>
    if e = 117 then
      match getu4 (92 :: afterBackslash) with
      | none => none
      | some rr =>
        if 0xD800 ≤ rr ∧ rr < 0xE000 then
          match getu4 (afterBackslash.drop 5) with
          | some rr1 =>
            if rr < 0xDC00 ∧ 0xDC00 ≤ rr1 ∧ rr1 < 0xE000 then
              some (encodeRune ((rr - 0xD800) * 1024 + (rr1 - 0xDC00) + 0x10000), 11)
            else some (encodeRune 0xFFFD, 5)
          | none => some (encodeRune 0xFFFD, 5)
        else some (encodeRune rr, 5)
    else if e = 34 ∨ e = 92 ∨ e = 47 ∨ e = 39 then some ([e], 1)
    else if e = 98 then some ([8], 1)
    else if e = 102 then some ([12], 1)
    else if e = 110 then some ([10], 1)
    else if e = 114 then some ([13], 1)
    else if e = 116 then some ([9], 1)
    else none

/-- The loop of the decoder's `unquoteBytes` over the text between the
    quotes; `skip` counts bytes already consumed by the previous step.
    Escapes are replaced, ill-formed UTF-8 becomes U+FFFD, and a raw quote
    or control character fails. (Go first copies the longest prefix that
    needs no change; the loop writes the same bytes for it.) -/
def unquoteLoop : Nat → Bytes → Option Bytes
  | _, [] => some []
  | skip + 1, _ :: rest => unquoteLoop skip rest
  | 0, c :: rest =>
    if c = 92 then
      match unquoteEscape rest with
      | none => none
      | some (out, skip) => (unquoteLoop skip rest).map (out ++ ·)
    else if c = 34 ∨ c < 32 then none
    else if c < 0x80 then (unquoteLoop 0 rest).map (c :: ·)
    else
      (unquoteLoop ((decodeRune (c :: rest)).2 - 1) rest).map
        (encodeRune (decodeRune (c :: rest)).1 ++ ·)

/-- The text of a JSON string literal given the bytes between its quotes. -/
def unquote (raw : Bytes) : Option Bytes := unquoteLoop 0 raw

/-- A JSON value as the scanner delimits it: numbers keep their literal,
    strings are unquoted, object members keep their order and duplicates. -/
inductive JValue where
  | null
  | bool (b : Bool)
  | num (lit : Bytes)
  | str (s : Bytes)
  | arr (items : List JValue)
  | obj (members : List (Bytes × JValue))

/-- An entry of the scanner's parse stack with the part of the container
    read so far. `objectKey` is Go's `parseObjectKey` (the key is `none`
    until its string is read), `objectValue` is `parseObjectValue` (the key
    is `some` until its value is read), `arrayValue` is `parseArrayValue`. -/
inductive Frame where
  | objectKey (members : List (Bytes × JValue)) (key : Option Bytes)
  | objectValue (members : List (Bytes × JValue)) (key : Option Bytes)
  | arrayValue (items : List JValue)

/-- The step functions of the scanner, with the literal text read so far. -/
inductive Scan where
  | beginValue
  | beginValueOrEmpty
  | beginStringOrEmpty
  | beginString
  | endValue
  | inString (raw : Bytes)
  | inStringEsc (raw : Bytes)
  | inStringEscU (seen : Nat) (raw : Bytes)
  | numNeg (lit : Bytes)
  | num0 (lit : Bytes)
  | num1 (lit : Bytes)
  | numDot (lit : Bytes)
  | numDot0 (lit : Bytes)
  | numE (lit : Bytes)
  | numESign (lit : Bytes)
  | numE0 (lit : Bytes)
  | literal (rest : Bytes) (v : JValue)

/-- What one byte does to the scanner. -/
inductive Step where
  | next (s : Scan) (stack : List Frame)
  | done (v : JValue)
  | error

/-- The scanner's `isSpace`. -/
def isSpace (c : Nat) : Bool := c = 32 || c = 9 || c = 13 || c = 10

/-- The scanner's nesting limit. -/
def maxNestingDepth : Nat := 10000

/-- A finished value goes to the enclosing container, or ends the scan. -/
def deliver (v : JValue) : List Frame → Step
  | [] => .done v
  | .objectKey ms none :: st =>
    match v with
    | .str k => .next .endValue (.objectKey ms (some k) :: st)
    | _ => .error
  | .objectValue ms (some k) :: st => .next .endValue (.objectValue (ms ++ [(k, v)]) none :: st)
  | .arrayValue items :: st => .next .endValue (.arrayValue (items ++ [v]) :: st)
  | _ => .error

/-- The scanner's `stateEndValue` inside a container. -/
def stateEndValue (c : Nat) : List Frame → Step
  | [] => .error
  | f :: st =>
    if isSpace c then .next .endValue (f :: st)
    else match f with
      | .objectKey ms (some k) =>
        if c = 58 then .next .beginValue (.objectValue ms (some k) :: st) else .error
      | .objectValue ms none =>
        if c = 44 then .next .beginString (.objectKey ms none :: st)
        else if c = 125 then deliver (.obj ms) st
        else .error
      | .arrayValue items =>
        if c = 44 then .next .beginValue (.arrayValue items :: st)
        else if c = 93 then deliver (.arr items) st
        else .error
      | _ => .error

/-- The end of a number: the value is delivered and the byte that ended it
    is read again as the byte after a value. -/
def endNumber (lit : Bytes) (c : Nat) (st : List Frame) : Step :=
  match deliver (.num lit) st with
  | .next _ st1 => stateEndValue c st1
  | r => r

/-- The scanner's `stateBeginValue`. -/
def stateBeginValue (c : Nat) (st : List Frame) : Step :=
  if isSpace c then .next .beginValue st
  else if c = 123 then
    if st.length < maxNestingDepth then .next .beginStringOrEmpty (.objectKey [] none :: st)
    else .error
  else if c = 91 then
    if st.length < maxNestingDepth then .next .beginValueOrEmpty (.arrayValue [] :: st)
    else .error
  else if c = 34 then .next (.inString []) st
  else if c = 45 then .next (.numNeg [c]) st
  else if c = 48 then .next (.num0 [c]) st
  else if c = 116 then .next (.literal [114, 117, 101] (.bool true)) st
  else if c = 102 then .next (.literal [97, 108, 115, 101] (.bool false)) st
  else if c = 110 then .next (.literal [117, 108, 108] .null) st
  else if 49 ≤ c ∧ c ≤ 57 then .next (.num1 [c]) st
  else .error

/-- The scanner's `stateBeginString`. -/
def stateBeginString (c : Nat) (st : List Frame) : Step :=
  if isSpace c then .next .beginString st
  else if c = 34 then .next (.inString []) st
  else .error

/-- The scanner's `state0`: after the integer part of a number. -/
def state0 (lit : Bytes) (c : Nat) (st : List Frame) : Step :=
  if c = 46 then .next (.numDot (lit ++ [c])) st
  else if c = 101 ∨ c = 69 then .next (.numE (lit ++ [c])) st
  else endNumber lit c st

/-- The scanner's `stateESign`: the first digit of an exponent. -/
def stateESign (lit : Bytes) (c : Nat) (st : List Frame) : Step :=
  if 48 ≤ c ∧ c ≤ 57 then .next (.numE0 (lit ++ [c])) st else .error

/-- One byte through the scanner. -/
def step (s : Scan) (st : List Frame) (c : Nat) : Step :=
  match s with
  | .beginValue => stateBeginValue c st
  | .beginValueOrEmpty =>
    if isSpace c then .next .beginValueOrEmpty st
    else if c = 93 then stateEndValue c st
    else stateBeginValue c st
  | .beginStringOrEmpty =>
    if isSpace c then .next .beginStringOrEmpty st
    else if c = 125 then
      match st with
      | .objectKey ms none :: st1 => stateEndValue c (.objectValue ms none :: st1)
      | _ => .error
    else stateBeginString c st
  | .beginString => stateBeginString c st
  | .endValue => stateEndValue c st
  | .inString raw =>
    if c = 34 then
      match unquote raw with
      | some s => deliver (.str s) st
      | none => .error
    else if c = 92 then .next (.inStringEsc (raw ++ [c])) st
    else if c < 32 then .error
    else .next (.inString (raw ++ [c])) st
  | .inStringEsc raw =>
    if c = 98 ∨ c = 102 ∨ c = 110 ∨ c = 114 ∨ c = 116 ∨ c = 92 ∨ c = 47 ∨ c = 34 then
      .next (.inString (raw ++ [c])) st
    else if c = 117 then .next (.inStringEscU 0 (raw ++ [c])) st
    else .error
  | .inStringEscU seen raw =>
    if (hexVal c).isSome then
      if seen < 3 then .next (.inStringEscU (seen + 1) (raw ++ [c])) st
      else .next (.inString (raw ++ [c])) st
    else .error
  | .numNeg lit =>
    if c = 48 then .next (.num0 (lit ++ [c])) st
    else if 49 ≤ c ∧ c ≤ 57 then .next (.num1 (lit ++ [c])) st
    else .error
  | .num1 lit =>
    if 48 ≤ c ∧ c ≤ 57 then .next (.num1 (lit ++ [c])) st else state0 lit c st
  | .num0 lit => state0 lit c st
  | .numDot lit =>
    if 48 ≤ c ∧ c ≤ 57 then .next (.numDot0 (lit ++ [c])) st else .error
  | .numDot0 lit =>
    if 48 ≤ c ∧ c ≤ 57 then .next (.numDot0 (lit ++ [c])) st
    else if c = 101 ∨ c = 69 then .next (.numE (lit ++ [c])) st
    else endNumber lit c st
  | .numE lit =>
    if c = 43 ∨ c = 45 then .next (.numESign (lit ++ [c])) st else stateESign lit c st
  | .numESign lit => stateESign lit c st
  | .numE0 lit =>
    if 48 ≤ c ∧ c ≤ 57 then .next (.numE0 (lit ++ [c])) st else endNumber lit c st
  | .literal rest v =>
    match rest with
    | [] => .error
    | [x] => if c = x then deliver v st else .error
    | x :: xs => if c = x then .next (.literal xs v) st else .error

/-- The scanner run over the input until the first value is complete. At
    the end of the input only a top-level number can still be complete. -/
def scanRun : Scan → List Frame → Bytes → Option JValue
  | s, st, [] =>
    match s, st with
    | .num0 lit, [] => some (.num lit)
    | .num1 lit, [] => some (.num lit)
    | .numDot0 lit, [] => some (.num lit)
    | .numE0 lit, [] => some (.num lit)
    | _, _ => none
  | s, st, c :: cs =>
    match step s st c with
    | .next s1 st1 => scanRun s1 st1 cs
    | .done v => some v
    | .error => none

/-- The first JSON value of a stream, as `(*json.Decoder).Decode` reads it:
    leading white space is skipped, what follows the value is left unread,
    and `none` stands for a syntax error or a premature end of input. -/
def jsonReadValue (data : Bytes) : Option JValue := scanRun .beginValue [] data

/-! ## encoding/json: decoding into a map -/

/-- A Go map with string keys, as the list of its entries (keys distinct);
    the nil map is the empty list, which answers every lookup alike. -/
abbrev GoMap (α : Type) := List (Bytes × α)

/-- The assignment `m[k] = v`. -/
def mapSet {α : Type} (m : GoMap α) (k : Bytes) (v : α) : GoMap α :=
  (k, v) :: m.filter (fun e => e.1 ≠ k)

/-- The two-result lookup `v, exists := m[k]`. -/
def mapLookup {α : Type} (m : GoMap α) (k : Bytes) : Option α :=
  (m.find? (fun e => e.1 = k)).map (·.2)

/-- The value of a non-empty run of decimal digits. -/
def natOfDigits (ds : Bytes) : Option Nat :=
  if ds ≠ [] ∧ ds.all (fun d => 48 ≤ d ∧ d ≤ 57) then
    some (ds.foldl (fun acc d => acc * 10 + (d - 48)) 0)
  else none

/-- The Go call `strconv.ParseInt(lit, 10, 64)`. -/
def parseInt (lit : Bytes) : Option Int :=
  match lit with
  | 45 :: ds => (natOfDigits ds).bind (fun n => if n ≤ 2 ^ 63 then some (-(n : Int)) else none)
  | 43 :: ds => (natOfDigits ds).bind (fun n => if n < 2 ^ 63 then some (n : Int) else none)
  | ds => (natOfDigits ds).bind (fun n => if n < 2 ^ 63 then some (n : Int) else none)

/-- A member value stored into an `int` element: the value and whether an
    `UnmarshalTypeError` is recorded. `null` leaves the zero value without
    an error; every value that is not an integer literal in range leaves the
    zero value and records the error. -/
def intOfValue : JValue → Int × Bool
  | .num lit =>
    match parseInt lit with
    | some n => (n, false)
    | none => (0, true)
  | .null => (0, false)
  | _ => (0, true)

/-- A member value stored into a `string` element. -/
def stringOfValue : JValue → Bytes × Bool
  | .str s => (s, false)
  | .null => ([], false)
  | _ => ([], true)

/-- The decoder's `object` into a map: every member is stored under its
    key, also when its value did not fit (the zero value is stored then),
    later members replace earlier ones, and the result says whether some
    member recorded a type error. -/
def storeMembers {α : Type} (conv : JValue → α × Bool) :
    List (Bytes × JValue) → GoMap α × Bool → GoMap α × Bool
  | [], acc => acc
  | (k, v) :: ms, acc => storeMembers conv ms (mapSet acc.1 k (conv v).1, acc.2 || (conv v).2)

/-- The Go call `json.NewDecoder(r).Decode(&data)` for a nil map `data`:
    the map afterwards and the error returned. -/
def jsonDecodeMap {α : Type} (conv : JValue → α × Bool) (input : Bytes) :
    GoMap α × Option GoError :=
  match jsonReadValue input with
  | none => ([], some .jsonRead)
  | some (.obj ms) =>
    let r := storeMembers conv ms ([], false)
    (r.1, if r.2 then some .jsonType else none)
  | some .null => ([], none)
  | some _ => ([], some .jsonType)

/-! ## net/url: escaping -/

/-- The escaping modes of `net/url`. -/
inductive Encoding where
  | encodePath
  | encodePathSegment
  | encodeHost
  | encodeZone
  | encodeUserPassword
  | encodeQueryComponent
  | encodeFragment
  deriving DecidableEq, Repr

/-- ASCII letter or digit. -/
def isAlnum (c : Nat) : Bool :=
  (97 ≤ c && c ≤ 122) || (65 ≤ c && c ≤ 90) || (48 ≤ c && c ≤ 57)

/-- The function `shouldEscape` of `net/url`. -/
def shouldEscape (c : Nat) (mode : Encoding) : Bool :=
  if isAlnum c then false
  else if (mode = .encodeHost ∨ mode = .encodeZone) ∧
      c ∈ [33, 36, 38, 39, 40, 41, 42, 43, 44, 59, 61, 58, 91, 93, 60, 62, 34] then false
  else if c ∈ [45, 95, 46, 126] then false
  else if c ∈ [36, 38, 43, 44, 47, 58, 59, 61, 63, 64] then
    match mode with
    | .encodePath => c = 63
    | .encodePathSegment => c = 47 || c = 59 || c = 44 || c = 63
    | .encodeUserPassword => c = 64 || c = 47 || c = 63 || c = 58
    | .encodeQueryComponent => true
    | .encodeFragment => false
    | _ => true
  else if mode = .encodeFragment ∧ c ∈ [33, 40, 41, 42] then false
  else true

/-- The digit of `"0123456789ABCDEF"` for a value below 16. -/
def upperhex (v : Nat) : Nat := if v < 10 then 48 + v else 55 + v

/-- The function `escape` of `net/url`. -/
def escape (s : Bytes) (mode : Encoding) : Bytes :=
  s.flatMap (fun c =>
    if shouldEscape c mode then
      if c = 32 ∧ mode = .encodeQueryComponent then [43]
      else [37, upperhex (c / 16), upperhex (c % 16)]
    else [c])

/-- The function `unescape` of `net/url`; `none` is an `EscapeError` or an
    `InvalidHostError`. -/
def unescape (mode : Encoding) : Bytes → Option Bytes
  | [] => some []
  | c :: rest =>
    if c = 37 then
      match rest with
      | a :: b :: rest2 =>
        match hexVal a, hexVal b with
        | some va, some vb =>
          if mode = .encodeHost ∧ va < 8 ∧ ¬ (a = 50 ∧ b = 53) then none
          else if mode = .encodeZone ∧ ¬ (a = 50 ∧ b = 53) ∧ va * 16 + vb ≠ 32
              ∧ shouldEscape (va * 16 + vb) .encodeHost then none
          else (unescape mode rest2).map ((va * 16 + vb) :: ·)
        | _, _ => none
      | _ => none
    else if c = 43 then
      (unescape mode rest).map ((if mode = .encodeQueryComponent then 32 else 43) :: ·)
    else if (mode = .encodeHost ∨ mode = .encodeZone) ∧ c < 0x80 ∧ shouldEscape c .encodeHost then
      none
    else (unescape mode rest).map (c :: ·)

/-- The Go call `url.QueryEscape`. -/
def queryEscape (s : Bytes) : Bytes := escape s .encodeQueryComponent

/-- The Go call `strings.Cut(s, string(sep))` for a one-byte separator:
    the text before the first separator, and the text after it if there is
    one. -/
def cutByte (sep : Nat) : Bytes → Bytes × Option Bytes
  | [] => ([], none)
  | c :: cs =>
    if c = sep then ([], some cs)
    else ((c :: (cutByte sep cs).1), (cutByte sep cs).2)

/-- The Go call `strings.LastIndex(s, string(sep))`, `none` for `-1`. -/
def lastIndexByte (sep : Nat) : Bytes → Option Nat
  | [] => none
  | c :: cs =>
    match lastIndexByte sep cs with
    | some i => some (i + 1)
    | none => if c = sep then some 0 else none

/-- Whether `p` starts the text `s`. -/
def startsWith (p : Bytes) (s : Bytes) : Bool := s.take p.length = p

/-- The Go call `strings.Index(s, sub)`, `none` for `-1`. -/
def indexSub (sub : Bytes) : Bytes → Option Nat
  | [] => if sub = [] then some 0 else none
  | c :: cs =>
    if startsWith sub (c :: cs) then some 0
    else (indexSub sub cs).map (· + 1)

/-- The Go call `strings.ToLower` on ASCII text. -/
def toLowerAscii (s : Bytes) : Bytes := s.map (fun c => if 65 ≤ c ∧ c ≤ 90 then c + 32 else c)

/-! ## net/url: parsing and printing -/

/-- The user name and password of a URL. -/
structure Userinfo where
  username : Bytes
  password : Bytes
  passwordSet : Bool
  deriving DecidableEq, Repr

/-- The struct `url.URL`; the field `Opaque` is `opaq` here. -/
structure URL where
  scheme : Bytes := []
  opaq : Bytes := []
  user : Option Userinfo := none
  host : Bytes := []
  path : Bytes := []
  rawPath : Bytes := []
  omitHost : Bool := false
  forceQuery : Bool := false
  rawQuery : Bytes := []
  fragment : Bytes := []
  rawFragment : Bytes := []
  deriving DecidableEq, Repr

/-- The loop of `getScheme`: `i` bytes of `raw` have been accepted. -/
def getSchemeLoop (raw : Bytes) : Nat → Bytes → Option (Bytes × Bytes)
  | _, [] => some ([], raw)
  | i, c :: cs =>
    if (97 ≤ c ∧ c ≤ 122) ∨ (65 ≤ c ∧ c ≤ 90) then getSchemeLoop raw (i + 1) cs
    else if (48 ≤ c ∧ c ≤ 57) ∨ c = 43 ∨ c = 45 ∨ c = 46 then
      if i = 0 then some ([], raw) else getSchemeLoop raw (i + 1) cs
    else if c = 58 then
      if i = 0 then none else some (raw.take i, cs)
    else some ([], raw)

/-- The function `getScheme`: the scheme and what follows its colon; `none`
    is the error "missing protocol scheme". -/
def getScheme (raw : Bytes) : Option (Bytes × Bytes) := getSchemeLoop raw 0 raw

/-- The function `validOptionalPort`. -/
def validOptionalPort (port : Bytes) : Bool :=
  match port with
  | [] => true
  | c :: ds => c = 58 && ds.all (fun b => 48 ≤ b && b ≤ 57)

/-- The function `parseHost`. -/
def parseHost (host : Bytes) : Option Bytes :=
  if host.head? = some 91 then
    match lastIndexByte 93 host with
    | none => none
    | some i =>
      if validOptionalPort (host.drop (i + 1)) then
        match indexSub [37, 50, 53] (host.take i) with
        | some zone =>
          match unescape .encodeHost (host.take zone),
              unescape .encodeZone ((host.take i).drop zone),
              unescape .encodeHost (host.drop i) with
          | some h1, some h2, some h3 => some (h1 ++ h2 ++ h3)
          | _, _, _ => none
        | none => unescape .encodeHost host
      else none
  else
    match lastIndexByte 58 host with
    | some i => if validOptionalPort (host.drop i) then unescape .encodeHost host else none
    | none => unescape .encodeHost host

/-- The function `validUserinfo`. -/
def validUserinfo (s : Bytes) : Bool :=
  s.all (fun r => isAlnum r ||
    decide (r ∈ [45, 46, 95, 58, 126, 33, 36, 38, 39, 40, 41, 42, 43, 44, 59, 61, 37, 64]))

/-- The function `parseAuthority`. -/
def parseAuthority (authority : Bytes) : Option (Option Userinfo × Bytes) :=
  match lastIndexByte 64 authority with
  | none => (parseHost authority).map (fun h => (none, h))
  | some i =>
    match parseHost (authority.drop (i + 1)) with
    | none => none
    | some host =>
      let userinfo := authority.take i
      if validUserinfo userinfo then
        match cutByte 58 userinfo with
        | (_, none) =>
          (unescape .encodeUserPassword userinfo).map
            (fun u => (some ⟨u, [], false⟩, host))
        | (username, some password) =>
          match unescape .encodeUserPassword username, unescape .encodeUserPassword password with
          | some u, some pw => some (some ⟨u, pw, true⟩, host)
          | _, _ => none
      else none

/-- The method `setPath`. -/
def setPath (u : URL) (p : Bytes) : Option URL :=
  match unescape .encodePath p with
  | none => none
  | some path =>
    some { u with path := path, rawPath := if p = escape path .encodePath then [] else p }

/-- The method `setFragment`. -/
def setFragment (u : URL) (f : Bytes) : Option URL :=
  match unescape .encodeFragment f with
  | none => none
  | some frag =>
    some { u with fragment := frag,
                  rawFragment := if f = escape frag .encodeFragment then [] else f }

/-- The function `parse` of `net/url` with `viaRequest` false, on a text
    without its fragment. -/
def parseNoFragment (rawURL : Bytes) : Option URL :=
  if rawURL.any (fun b => b < 32 || b = 127) then none
  else if rawURL = [42] then some { path := [42] }
  else
    match getScheme rawURL with
    | none => none
    | some (scheme0, rest0) =>
      let scheme := toLowerAscii scheme0
      let forced : Bool := rest0.getLast? = some 63 && rest0.count 63 = 1
      let rest1 := if forced then rest0.dropLast else (cutByte 63 rest0).1
      let rawQuery := if forced then [] else ((cutByte 63 rest0).2).getD []
      let u : URL := { scheme := scheme, forceQuery := forced, rawQuery := rawQuery }
      if rest1.head? ≠ some 47 ∧ scheme ≠ [] then some { u with opaq := rest1 }
      else if rest1.head? ≠ some 47 ∧ (cutByte 47 rest1).1.contains 58 then none
      else if (scheme ≠ [] ∨ ¬ startsWith [47, 47, 47] rest1) ∧ startsWith [47, 47] rest1 then
        let afterSlashes := rest1.drop 2
        let authority := (cutByte 47 afterSlashes).1
        let rest2 := afterSlashes.drop authority.length
        match parseAuthority authority with
        | none => none
        | some (user, host) => setPath { u with user := user, host := host } rest2
      else if scheme ≠ [] ∧ rest1.head? = some 47 then setPath { u with omitHost := true } rest1
      else setPath u rest1

/-- The Go call `url.Parse`; `none` is its `*url.Error`. -/
def urlParse (rawURL : Bytes) : Option URL :=
  match cutByte 35 rawURL with
  | (u, none) => parseNoFragment u
  | (u, some frag) =>
    match parseNoFragment u with
    | none => none
    | some url => if frag = [] then some url else setFragment url frag

/-- The function `validEncoded`. -/
def validEncoded (s : Bytes) (mode : Encoding) : Bool :=
  s.all (fun c =>
    decide (c ∈ [33, 36, 38, 39, 40, 41, 42, 43, 44, 59, 61, 58, 64, 91, 93, 37]) ||
      !shouldEscape c mode)

/-- The method `EscapedPath`. -/
def escapedPath (u : URL) : Bytes :=
  if u.rawPath ≠ [] ∧ validEncoded u.rawPath .encodePath
      ∧ unescape .encodePath u.rawPath = some u.path then u.rawPath
  else if u.path = [42] then [42]
  else escape u.path .encodePath

/-- The method `EscapedFragment`. -/
def escapedFragment (u : URL) : Bytes :=
  if u.rawFragment ≠ [] ∧ validEncoded u.rawFragment .encodeFragment
      ∧ unescape .encodeFragment u.rawFragment = some u.fragment then u.rawFragment
  else escape u.fragment .encodeFragment

/-- The method `(*Userinfo).String`. -/
def userinfoString (ui : Userinfo) : Bytes :=
  escape ui.username .encodeUserPassword ++
    (if ui.passwordSet then 58 :: escape ui.password .encodeUserPassword else [])

/-- The method `(*URL).String`. -/
def urlString (u : URL) : Bytes :=
  let schemePart := if u.scheme ≠ [] then u.scheme ++ [58] else []
  let body :=
    if u.opaq ≠ [] then schemePart ++ u.opaq
    else
      let authority :=
        if u.scheme ≠ [] ∨ u.host ≠ [] ∨ u.user.isSome then
          if u.omitHost ∧ u.host = [] ∧ u.user.isNone then []
          else
            (if u.host ≠ [] ∨ u.path ≠ [] ∨ u.user.isSome then [47, 47] else []) ++
            (match u.user with
              | some ui => userinfoString ui ++ [64]
              | none => []) ++
            (if u.host ≠ [] then escape u.host .encodeHost else [])
        else []
      let path := escapedPath u
      let buf1 := schemePart ++ authority ++
        (if path ≠ [] ∧ path.head? ≠ some 47 ∧ u.host ≠ [] then [47] else [])
      let buf2 := buf1 ++
        (if buf1 = [] ∧ (cutByte 47 path).1.contains 58 then [46, 47] else [])
      buf2 ++ path
  body ++ (if u.forceQuery ∨ u.rawQuery ≠ [] then 63 :: u.rawQuery else []) ++
    (if u.fragment ≠ [] then 35 :: escapedFragment u else [])

/-- Insertion of an entry into a list of entries sorted by key, byte-wise. -/
def insertSorted (e : Bytes × Bytes) : List (Bytes × Bytes) → List (Bytes × Bytes)
  | [] => [e]
  | x :: xs => if e.1 ≤ x.1 then e :: x :: xs else x :: insertSorted e xs

/-- One `key=value` piece of an encoded query, both parts query-escaped. -/
def queryPiece (kv : Bytes × Bytes) : Bytes := queryEscape kv.1 ++ [61] ++ queryEscape kv.2

/-- The method `url.Values.Encode` on values built by one `Add` per entry of
    a map: the entries sorted by key, each as `key=value`, joined by `&`. -/
def valuesEncode (params : GoMap Bytes) : Bytes :=
  List.intercalate [38] ((params.foldr insertSorted []).map queryPiece)

/-- The verb `%d` of `fmt.Sprintf` on an `int`. -/
def fmtInt (n : Int) : Bytes :=
  match n with
  | .ofNat k => (Nat.toDigits 10 k).map Char.toNat
  | .negSucc k => 45 :: (Nat.toDigits 10 (k + 1)).map Char.toNat

/-! ## Reference notions for the claims -/

/-- The value of the last member named `k` of an object. -/
def lastMember (k : Bytes) : List (Bytes × JValue) → Option JValue
  | [] => none
  | (k1, v) :: ms =>
    match lastMember k ms with
    | some x => some x
    | none => if k1 = k then some v else none

/-- The text of a number literal before its `e` or `E`, and the text after. -/
def cutExponent : Bytes → Bytes × Option Bytes
  | [] => ([], none)
  | c :: cs =>
    if c = 101 ∨ c = 69 then ([], some cs)
    else ((c :: (cutExponent cs).1), (cutExponent cs).2)

/-- The numeric value of a JSON number literal (RFC 8259), exactly: the
    pair `(m, x)` stands for `m * 10 ^ x`. -/
def jsonNumberValue (lit : Bytes) : Option (Int × Int) :=
  let negative := lit.head? = some 45
  let body := if negative then lit.drop 1 else lit
  let mantissa := (cutExponent body).1
  let intDigits := (cutByte 46 mantissa).1
  let fracDigits := ((cutByte 46 mantissa).2).getD []
  let exponent : Option Int :=
    match (cutExponent body).2 with
    | none => some 0
    | some (45 :: ds) => (natOfDigits ds).map (fun n => -(n : Int))
    | some (43 :: ds) => (natOfDigits ds).map (fun n => (n : Int))
    | some ds => (natOfDigits ds).map (fun n => (n : Int))
  match natOfDigits (intDigits ++ fracDigits), exponent with
  | some m, some x =>
    some ((if negative then -(m : Int) else (m : Int)), x - (fracDigits.length : Int))
  | _, _ => none

/-- Whether `m * 10 ^ x ≤ n` for the pair `v = (m, x)`. -/
def scaledLe (v : Int × Int) (n : Int) : Bool :=
  if 0 ≤ v.2 then decide (v.1 * 10 ^ v.2.toNat ≤ n)
  else decide (v.1 ≤ n * 10 ^ (-v.2).toNat)

/-- A URL scheme: a letter followed by letters, digits, `+`, `-` and `.`. -/
def isScheme (s : Bytes) : Bool :=
  match s with
  | [] => false
  | c :: cs =>
    ((97 ≤ c && c ≤ 122) || (65 ≤ c && c ≤ 90)) &&
      cs.all (fun b => isAlnum b || b = 43 || b = 45 || b = 46)

/-! ## auth.go -/

/-- The text of the error `jwtExpired` creates. -/
def expNotFound : GoError :=
  .errorsNew (ascii "bigbucket -- Failed to decode JWT JSON content, 'exp' not found")

/-- The padding step of `jwtExpired`: `=` is appended until the length of
    the segment is a multiple of four. -/
def padSegment (seg : Bytes) : Bytes :=
  let l := seg.length % 4
  if l > 0 then seg ++ List.replicate (4 - l) 61 else seg

/-- The function `jwtExpired` of `auth.go`; `unixNow` is the value of
    `time.Now().Unix()`. The result is the pair `(bool, error)`. -/
def jwtExpired (unixNow : Int) (jwt : Bytes) : Outcome (Bool × Option GoError) :=
  if jwt = [] then .ret (true, none)
  else
    let jwtArr := stringsSplit 46 jwt
    match jwtArr[1]? with
    | none => .panic
    | some seg =>
      match base64DecodeString (padSegment seg) with
      | .error err => .ret (true, some err)
      | .ok segPayload =>
        let data : GoMap Int := (jsonDecodeMap intOfValue segPayload).1
        match mapLookup data (ascii "exp") with
        | none => .ret (true, some expNotFound)
        | some expiry =>
          let now := wrap64 (unixNow + 30)
          .ret (decide (expiry ≤ now), none)

/-! ## net/textproto and net/http -/

/-- The token bytes of RFC 7230 (`validHeaderFieldByte`, `httpguts.IsTokenRune`). -/
def validHeaderFieldByte (c : Nat) : Bool :=
  isAlnum c || decide (c ∈ [33, 35, 36, 37, 38, 39, 42, 43, 45, 46, 94, 95, 96, 124, 126])

/-- The case change of `canonicalMIMEHeaderKey`: upper case at the start and
    after each `-`, lower case elsewhere. -/
def canonicalCase : Bool → Bytes → Bytes
  | _, [] => []
  | upper, c :: cs =>
    let c1 := if upper ∧ 97 ≤ c ∧ c ≤ 122 then c - 32
              else if ¬ upper ∧ 65 ≤ c ∧ c ≤ 90 then c + 32 else c
    c1 :: canonicalCase (c1 = 45) cs

/-- The Go call `textproto.CanonicalMIMEHeaderKey`: a key with a byte that
    is not a token byte is returned unchanged. -/
def canonicalMIMEHeaderKey (s : Bytes) : Bytes :=
  if s.all validHeaderFieldByte then canonicalCase true s else s

/-- An `http.Header` on which only `Set` is used: one value per canonical key. -/
abbrev Header := GoMap Bytes

/-- The method `Header.Set`. -/
def headerSet (h : Header) (key value : Bytes) : Header :=
  mapSet h (canonicalMIMEHeaderKey key) value

/-- The method `Header.Get` where the key is present. -/
def headerGet (h : Header) (key : Bytes) : Option Bytes :=
  mapLookup h (canonicalMIMEHeaderKey key)

/-- The part of an `*http.Request` the client sets: the method, the URL text
    given to `http.NewRequest`, the header, and the body as the mapping that
    `json.Marshal` serialised (`none` for no body). -/
structure Request where
  method : Bytes
  url : Bytes
  header : Header
  body : Option (GoMap Bytes)
  deriving DecidableEq, Repr

/-- The part of an `*http.Response` the client reads. -/
structure Response where
  statusCode : Int
  body : Bytes
  deriving DecidableEq, Repr

/-- The Go call `http.NewRequest(method, url, body)`: the empty method is
    `GET`, a method that is not a token and a URL that does not parse are
    errors. -/
def newRequest (method url : Bytes) (body : Option (GoMap Bytes)) : Except GoError Request :=
  let m := if method = [] then ascii "GET" else method
  if ¬ m.all validHeaderFieldByte then .error .newRequest
  else
    match urlParse url with
    | none => .error .urlParse
    | some _ => .ok { method := m, url := url, header := [], body := body }

/-! ## utils.go: constructUrl -/

/-- The function `constructUrl` of `utils.go`; `params` is `none` for a nil
    map. -/
def constructUrl (address path : Bytes) (params : Option (GoMap Bytes)) : Except GoError Bytes :=
  match urlParse address with
  | none => .error .urlParse
  | some Url =>
    let Url1 := { Url with path := Url.path ++ path }
    let Url2 :=
      match params with
      | some ps => { Url1 with rawQuery := valuesEncode ps }
      | none => Url1
    .ok (urlString Url2)

/-! ## client.go and the environment -/

/-- The struct `Client` of `client.go`. The entries of `headers` are listed
    in the order in which `range` visits them, which Go leaves unspecified. -/
structure Client where
  address : Bytes
  timeout : Int
  gcpAuth : Bool
  headers : GoMap Bytes
  jwt : Bytes
  deriving DecidableEq, Repr

/-- What the code reads from outside: the clock, the metadata service's
    answer to a request (the outcome of `Do` followed by `ioutil.ReadAll`),
    and the target service's answer under a timeout in seconds (`Do`). -/
structure World where
  unixNow : Int
  metadata : Request → Except GoError Bytes
  target : Int → Request → Except GoError Response

/-- The function `getGcpAuthToken` of `auth.go`. -/
def getGcpAuthToken (w : World) (receivingServiceUrl : Bytes) : Except GoError Bytes :=
  let params : GoMap Bytes := [(ascii "audience", receivingServiceUrl)]
  match constructUrl (ascii "http://metadata")
      (ascii "/computeMetadata/v1/instance/service-accounts/default/identity") (some params) with
  | .error err => .error err
  | .ok httpUrl =>
    match newRequest (ascii "GET") httpUrl none with
    | .error err => .error err
    | .ok req =>
      w.metadata
        { req with header := headerSet req.header (ascii "Metadata-Flavor") (ascii "Google") }

/-- What one call of `httpRequest` did: the client afterwards, the audiences
    of its calls of `getGcpAuthToken` in order, the request it passed to
    `httpClient.Do` if it got that far, and what it returned. -/
structure Run where
  client : Client
  fetches : List Bytes
  sent : Option Request
  result : Except GoError Response
  deriving DecidableEq

/-- The loop `for header, value := range client.headers` of `httpRequest`:
    `Header.Set` for every entry, in `range` order. -/
def setHeaders (headers : GoMap Bytes) (h : Header) : Header :=
  headers.foldl (fun acc kv => headerSet acc kv.1 kv.2) h

/-- The end of `httpRequest`: the configured headers are set and the request
    is dispatched. -/
def dispatch (w : World) (client : Client) (fetches : List Bytes) (req : Request) : Run :=
  let req1 := { req with header := setHeaders client.headers req.header }
  { client := client, fetches := fetches, sent := some req1,
    result := w.target client.timeout req1 }

/-- The function `httpRequest` of `utils.go`. -/
def httpRequest (w : World) (method : Bytes) (client : Client) (path : Bytes)
    (params body : Option (GoMap Bytes)) : Outcome Run :=
  match constructUrl client.address path params with
  | .error err => .ret { client := client, fetches := [], sent := none, result := .error err }
  | .ok httpUrl =>
    match newRequest method httpUrl body with
    | .error err => .ret { client := client, fetches := [], sent := none, result := .error err }
    | .ok req0 =>
      let req :=
        match body with
        | some _ =>
          { req0 with
            header := headerSet req0.header (ascii "Content-Type") (ascii "application/json") }
        | none => req0
      if client.gcpAuth then
        match jwtExpired w.unixNow client.jwt with
        | .panic => .panic
        | .ret (_, some err) =>
          .ret { client := client, fetches := [], sent := none, result := .error err }
        | .ret (expired, none) =>
          if expired then
            match getGcpAuthToken w client.address with
            | .error err =>
              .ret { client := { client with jwt := [] }, fetches := [client.address],
                     sent := none, result := .error err }
            | .ok token =>
              let client1 := { client with jwt := token }
              let authorization := ascii "bearer " ++ client1.jwt
              .ret (dispatch w client1 [client.address]
                { req with header := headerSet req.header (ascii "Authorization") authorization })
          else
            let authorization := ascii "bearer " ++ client.jwt
            .ret (dispatch w client []
              { req with header := headerSet req.header (ascii "Authorization") authorization })
      else .ret (dispatch w client [] req)

/-- The `exp` claim a token carries: the integer that the last `exp` member
    of the JSON object in its second segment denotes. -/
def tokenExp (jwt : Bytes) : Option Int :=
  match (stringsSplit 46 jwt)[1]? with
  | none => none
  | some seg =>
    match base64DecodeString (padSegment seg) with
    | .error _ => none
    | .ok payload =>
      match jsonReadValue payload with
      | some (.obj ms) =>
        match lastMember (ascii "exp") ms with
        | some (.num lit) => parseInt lit
        | _ => none
      | _ => none

/-! ## utils.go: constructError -/

/-- The function `constructError` of `utils.go`. -/
def constructError (response : Response) : GoError :=
  match jsonDecodeMap stringOfValue response.body with
  | (_, some err) => err
  | (data, none) =>
    .errorsNew (ascii "bigbucket -- " ++ fmtInt response.statusCode ++ ascii ": "
      ++ (mapLookup data (ascii "error")).getD [])

/-! ## Values for the examples -/

/-- A world for the examples: the clock at `unixNow`, a metadata service
    that answers every request with `token`, a target that answers 200. -/
def exampleWorld (unixNow : Int) (token : Bytes) : World :=
  { unixNow := unixNow, metadata := fun _ => .ok token, target := fun _ _ => .ok ⟨200, []⟩ }

/-- A client for the examples: the default address and timeout with
    authentication enabled. -/
def exampleClient (headers : GoMap Bytes) (jwt : Bytes) : Client :=
  { address := ascii "http://localhost:8080", timeout := 30, gcpAuth := true,
    headers := headers, jwt := jwt }

/-- A token whose payload is
    `{"iss":"https://accounts.google.com","exp":1700000000}`. -/
def exampleToken : Bytes :=
  ascii "h.eyJpc3MiOiJodHRwczovL2FjY291bnRzLmdvb2dsZS5jb20iLCJleHAiOjE3MDAwMDAwMDB9.s"

/-! ## Lemmas and the claims -/

/-! ### base64: decoding undoes encoding -/

theorem b64Val_b64Char : ∀ i : Fin 64, b64Val (b64Char i) = some i.val := by decide

theorem b64Char_ne : ∀ i : Fin 64, b64Char i ≠ 61 ∧ b64Char i ≠ 10 ∧ b64Char i ≠ 13 := by decide

theorem b64Val_char (i : Nat) (h : i < 64) : b64Val (b64Char i) = some i :=
  b64Val_b64Char ⟨i, h⟩

theorem b64Char_ne_pad (i : Nat) (h : i < 64) : b64Char i ≠ 61 :=
  (b64Char_ne ⟨i, h⟩).1

theorem decodeQuanta_encode (bs : Bytes) (h : ∀ b ∈ bs, b < 256) :
    decodeQuanta (base64Encode bs) = some bs := by
  induction bs using base64Encode.induct with
  | case1 => rfl
  | case2 x =>
    have hx : x < 256 := h x (by simp)
    simp only [base64Encode, decodeQuanta, b64Val_char (x / 4) (by omega),
      b64Val_char (x % 4 * 16) (by omega)]
    simp
    omega
  | case3 x y =>
    have hx : x < 256 := h x (by simp)
    have hy : y < 256 := h y (by simp)
    simp only [base64Encode, decodeQuanta, b64Val_char (x / 4) (by omega),
      b64Val_char (x % 4 * 16 + y / 16) (by omega), b64Val_char (y % 16 * 4) (by omega),
      b64Char_ne_pad (y % 16 * 4) (by omega)]
    simp
    omega
  | case4 x y z rest ih =>
    have hx : x < 256 := h x (by simp)
    have hy : y < 256 := h y (by simp)
    have hz : z < 256 := h z (by simp)
    have ih' := ih (fun b hb => h b (by simp [hb]))
    simp only [base64Encode, decodeQuanta, b64Val_char (x / 4) (by omega),
      b64Val_char (x % 4 * 16 + y / 16) (by omega), b64Val_char (y % 16 * 4 + z / 64) (by omega),
      b64Val_char (z % 64) (by omega),
      b64Char_ne_pad (y % 16 * 4 + z / 64) (by omega), b64Char_ne_pad (z % 64) (by omega), ih']
    simp
    omega

/-! ### Lookups in a decoded map -/


theorem b64Char_not_newline (i : Nat) (h : i < 64) : b64Char i ≠ 10 ∧ b64Char i ≠ 13 :=
  (b64Char_ne ⟨i, h⟩).2

theorem base64Encode_no_newline (bs : Bytes) (h : ∀ b ∈ bs, b < 256) :
    ∀ c ∈ base64Encode bs, c ≠ 10 ∧ c ≠ 13 := by
  induction bs using base64Encode.induct with
  | case1 => simp [base64Encode]
  | case2 x =>
    have hx : x < 256 := h x (by simp)
    have h1 := b64Char_not_newline (x / 4) (by omega)
    have h2 := b64Char_not_newline (x % 4 * 16) (by omega)
    intro c hc
    simp only [base64Encode, List.mem_cons, List.mem_singleton, List.not_mem_nil, or_false] at hc
    rcases hc with rfl | rfl | rfl | rfl <;> first | assumption | decide
  | case3 x y =>
    have hx : x < 256 := h x (by simp)
    have hy : y < 256 := h y (by simp)
    have h1 := b64Char_not_newline (x / 4) (by omega)
    have h2 := b64Char_not_newline (x % 4 * 16 + y / 16) (by omega)
    have h3 := b64Char_not_newline (y % 16 * 4) (by omega)
    intro c hc
    simp only [base64Encode, List.mem_cons, List.mem_singleton, List.not_mem_nil, or_false] at hc
    rcases hc with rfl | rfl | rfl | rfl <;> first | assumption | decide
  | case4 x y z rest ih =>
    have hx : x < 256 := h x (by simp)
    have hy : y < 256 := h y (by simp)
    have hz : z < 256 := h z (by simp)
    have h1 := b64Char_not_newline (x / 4) (by omega)
    have h2 := b64Char_not_newline (x % 4 * 16 + y / 16) (by omega)
    have h3 := b64Char_not_newline (y % 16 * 4 + z / 64) (by omega)
    have h4 := b64Char_not_newline (z % 64) (by omega)
    have ih' := ih (fun b hb => h b (by simp [hb]))
    intro c hc
    simp only [base64Encode, List.mem_cons] at hc
    rcases hc with rfl | rfl | rfl | rfl | hc
    · exact h1
    · exact h2
    · exact h3
    · exact h4
    · exact ih' c hc

/-- Decoding undoes encoding: `DecodeString(EncodeToString(bs)) = bs`. -/
theorem base64DecodeString_encode (bs : Bytes) (h : ∀ b ∈ bs, b < 256) :
    base64DecodeString (base64Encode bs) = .ok bs := by
  have hf : (base64Encode bs).filter (fun c => c ≠ 10 ∧ c ≠ 13) = base64Encode bs := by
    apply List.filter_eq_self.mpr
    intro c hc
    have := base64Encode_no_newline bs h c hc
    simp [this.1, this.2]
  simp only [base64DecodeString, hf, decodeQuanta_encode bs h]

theorem find_filter_ne {α : Type} (m : GoMap α) (k k1 : Bytes) (h : k1 ≠ k) :
    (m.filter (fun e => e.1 ≠ k1)).find? (fun e => e.1 = k) = m.find? (fun e => e.1 = k) := by
  induction m with
  | nil => rfl
  | cons e m ih =>
    by_cases he : e.1 = k
    · have h1 : e.1 ≠ k1 := by rw [he]; exact fun h2 => h h2.symm
      rw [List.filter_cons_of_pos (by simpa using h1)]
      rw [List.find?_cons_of_pos _ (by simpa using he), List.find?_cons_of_pos _ (by simpa using he)]
    · rw [List.find?_cons_of_neg _ (by simpa using he)]
      by_cases he1 : e.1 = k1
      · rw [List.filter_cons_of_neg (by simpa using he1)]
        exact ih
      · rw [List.filter_cons_of_pos (by simpa using he1)]
        rw [List.find?_cons_of_neg _ (by simpa using he)]
        exact ih

theorem mapLookup_mapSet {α : Type} (m : GoMap α) (k k1 : Bytes) (x : α) :
    mapLookup (mapSet m k1 x) k = if k1 = k then some x else mapLookup m k := by
  unfold mapLookup mapSet
  by_cases h : k1 = k
  · rw [List.find?_cons_of_pos _ (by simpa using h)]
    simp [h]
  · rw [List.find?_cons_of_neg _ (by simpa using h), find_filter_ne m k k1 h]
    simp [h]

theorem mapLookup_storeMembers {α : Type} (conv : JValue → α × Bool) (k : Bytes)
    (ms : List (Bytes × JValue)) (acc : GoMap α × Bool) :
    mapLookup (storeMembers conv ms acc).1 k =
      match lastMember k ms with
      | some v => some (conv v).1
      | none => mapLookup acc.1 k := by
  induction ms generalizing acc with
  | nil => simp [storeMembers, lastMember]
  | cons e ms ih =>
    obtain ⟨k1, v⟩ := e
    simp only [storeMembers, lastMember]
    rw [ih]
    cases hl : lastMember k ms with
    | some x => simp
    | none =>
      simp only [mapLookup_mapSet]
      by_cases h : k1 = k <;> simp [h]

/-! ### jwtExpired: C1 -/

theorem wrap64_of_range (x : Int) (h1 : -2 ^ 63 ≤ x) (h2 : x < 2 ^ 63) : wrap64 x = x := by
  unfold wrap64
  omega

theorem intOfValue_not_integer (v : JValue) (h : ∀ lit, v = .num lit → parseInt lit = none) :
    (intOfValue v).1 = 0 := by
  cases v with
  | num lit => simp [intOfValue, h lit rfl]
  | _ => rfl

theorem jwtExpired_of_segment (unixNow : Int) (jwt first seg : Bytes) (others : List Bytes)
    (hne : jwt ≠ []) (hsplit : stringsSplit 46 jwt = first :: seg :: others) :
    jwtExpired unixNow jwt =
      match base64DecodeString (padSegment seg) with
      | .error err => .ret (true, some err)
      | .ok segPayload =>
        match mapLookup (jsonDecodeMap intOfValue segPayload).1 (ascii "exp") with
        | none => .ret (true, some expNotFound)
        | some expiry => .ret (decide (expiry ≤ wrap64 (unixNow + 30)), none) := by
  unfold jwtExpired
  simp [hne, hsplit]

theorem lookup_exp_of_object (payload : Bytes) (ms : List (Bytes × JValue))
    (hobj : jsonReadValue payload = some (.obj ms)) :
    mapLookup (jsonDecodeMap intOfValue payload).1 (ascii "exp") =
      (lastMember (ascii "exp") ms).map (fun v => (intOfValue v).1) := by
  unfold jsonDecodeMap
  simp only [hobj]
  rw [mapLookup_storeMembers]
  cases lastMember (ascii "exp") ms <;> simp [mapLookup]

theorem lookup_exp_of_not_object (payload : Bytes)
    (hobj : ∀ ms, jsonReadValue payload ≠ some (.obj ms)) :
    mapLookup (jsonDecodeMap intOfValue payload).1 (ascii "exp") = none := by
  unfold jsonDecodeMap
  cases h : jsonReadValue payload with
  | none => simp [mapLookup]
  | some v =>
    cases v with
    | obj ms => exact absurd h (hobj ms)
    | _ => simp [mapLookup]

/-- C1 (amended): the empty token is expired with no error, and for every
    clock value and every non-empty token whose second dot-separated segment
    is, after `=` padding, the base64url encoding of a payload that reads as a
    JSON object whose (last) `exp` member is an integer literal `e` that fits
    a 64-bit integer, `jwtExpired` returns no error and the boolean
    `e ≤ now + 30`, the sum taken in Go's 64-bit `int`. -/
theorem jwtExpired_integer_exp (unixNow : Int) (jwt first seg payload lit : Bytes)
    (others : List Bytes) (members : List (Bytes × JValue)) (e : Int)
    (hne : jwt ≠ [])
    (hsplit : stringsSplit 46 jwt = first :: seg :: others)
    (hbytes : ∀ b ∈ payload, b < 256)
    (hseg : padSegment seg = base64Encode payload)
    (hobj : jsonReadValue payload = some (.obj members))
    (hexp : lastMember (ascii "exp") members = some (.num lit))
    (hint : parseInt lit = some e) :
    jwtExpired unixNow [] = .ret (true, none) ∧
    jwtExpired unixNow jwt = .ret (decide (e ≤ wrap64 (unixNow + 30)), none) := by
  refine ⟨by simp [jwtExpired], ?_⟩
  rw [jwtExpired_of_segment unixNow jwt first seg others hne hsplit, hseg,
    base64DecodeString_encode payload hbytes]
  simp only [lookup_exp_of_object payload members hobj, hexp, Option.map_some', intOfValue, hint]

/-- C1, an instance: a token with the payload
    `{"iss":"https://accounts.google.com","exp":1700000000}` at time 1699999000. -/
theorem jwtExpired_integer_exp_witness :
    jwtExpired 1699999000 [] = .ret (true, none) ∧
    jwtExpired 1699999000
      (ascii "h.eyJpc3MiOiJodHRwczovL2FjY291bnRzLmdvb2dsZS5jb20iLCJleHAiOjE3MDAwMDAwMDB9.s")
      = .ret (decide ((1700000000 : Int) ≤ wrap64 (1699999000 + 30)), none) :=
  jwtExpired_integer_exp 1699999000
    (ascii "h.eyJpc3MiOiJodHRwczovL2FjY291bnRzLmdvb2dsZS5jb20iLCJleHAiOjE3MDAwMDAwMDB9.s")
    (ascii "h") (ascii "eyJpc3MiOiJodHRwczovL2FjY291bnRzLmdvb2dsZS5jb20iLCJleHAiOjE3MDAwMDAwMDB9")
    (ascii "\x7b\"iss\":\"https://accounts.google.com\",\"exp\":1700000000\x7d")
    (ascii "1700000000") [ascii "s"]
    [(ascii "iss", .str (ascii "https://accounts.google.com")),
     (ascii "exp", .num (ascii "1700000000"))]
    1700000000 (by decide) (by decide) (by decide) (by decide) (by rfl) (by rfl) (by decide)

/-- C1 as stated fails: a payload whose `exp` is the JSON number
    `4000000000.5` (or the integer `9223372036854775808`) denotes a value
    greater than `0 + 30`, so the claim predicts `false`, and `jwtExpired`
    returns `true`. -/
theorem jwtExpired_numeric_exp_counterexample :
    (stringsSplit 46 (ascii "h.eyJleHAiOjQwMDAwMDAwMDAuNX0.s") =
        [ascii "h", ascii "eyJleHAiOjQwMDAwMDAwMDAuNX0", ascii "s"] ∧
      padSegment (ascii "eyJleHAiOjQwMDAwMDAwMDAuNX0") =
        base64Encode (ascii "\x7b\"exp\":4000000000.5\x7d") ∧
      jsonReadValue (ascii "\x7b\"exp\":4000000000.5\x7d") =
        some (.obj [(ascii "exp", .num (ascii "4000000000.5"))]) ∧
      jsonNumberValue (ascii "4000000000.5") = some (40000000005, -1) ∧
      scaledLe (40000000005, -1) (0 + 30) = false ∧
      jwtExpired 0 (ascii "h.eyJleHAiOjQwMDAwMDAwMDAuNX0.s") = .ret (true, none)) ∧
    (stringsSplit 46 (ascii "h.eyJleHAiOjkyMjMzNzIwMzY4NTQ3NzU4MDh9.s") =
        [ascii "h", ascii "eyJleHAiOjkyMjMzNzIwMzY4NTQ3NzU4MDh9", ascii "s"] ∧
      padSegment (ascii "eyJleHAiOjkyMjMzNzIwMzY4NTQ3NzU4MDh9") =
        base64Encode (ascii "\x7b\"exp\":9223372036854775808\x7d") ∧
      jsonReadValue (ascii "\x7b\"exp\":9223372036854775808\x7d") =
        some (.obj [(ascii "exp", .num (ascii "9223372036854775808"))]) ∧
      jsonNumberValue (ascii "9223372036854775808") = some (9223372036854775808, 0) ∧
      scaledLe (9223372036854775808, 0) (0 + 30) = false ∧
      jwtExpired 0 (ascii "h.eyJleHAiOjkyMjMzNzIwMzY4NTQ3NzU4MDh9.s") = .ret (true, none)) := by
  refine ⟨⟨by decide, by decide, by rfl, by decide, by decide, by decide⟩,
    ⟨by decide, by decide, by rfl, by decide, by decide, by decide⟩⟩

/-! ### jwtExpired and constructError: C2, C3, C7, C8 -/

theorem stringOfValue_str_flag (ms : List (Bytes × JValue))
    (h : ∀ kv ∈ ms, ∃ t, kv.2 = .str t) (acc : GoMap Bytes × Bool) :
    (storeMembers stringOfValue ms acc).2 = acc.2 := by
  induction ms generalizing acc with
  | nil => rfl
  | cons kv ms ih =>
    obtain ⟨k, v⟩ := kv
    obtain ⟨t, ht⟩ := h (k, v) (by simp)
    simp only at ht
    subst ht
    simp only [storeMembers]
    rw [ih (fun kv hkv => h kv (by simp [hkv]))]
    simp [stringOfValue]

theorem constructError_of_object (s : Int) (body : Bytes) (ms : List (Bytes × JValue))
    (hobj : jsonReadValue body = some (.obj ms))
    (hstr : ∀ kv ∈ ms, ∃ t, kv.2 = .str t) :
    constructError ⟨s, body⟩ =
      .errorsNew (ascii "bigbucket -- " ++ fmtInt s ++ ascii ": " ++
        ((lastMember (ascii "error") ms).map (fun v => (stringOfValue v).1)).getD []) := by
  have hflag := stringOfValue_str_flag ms hstr ([], false)
  have hlook := mapLookup_storeMembers stringOfValue (ascii "error") ms ([], false)
  unfold constructError jsonDecodeMap
  simp only [hobj, hflag]
  simp only [Bool.false_eq_true, if_false]
  rw [hlook]
  cases lastMember (ascii "error") ms <;> simp [mapLookup]

/-- C2 (amended): `jwtExpired` does not check the number of segments. For
    every non-empty token with two or more dot-separated segments it does not
    crash, its result is that of every other non-empty token with the same
    second segment, whatever the other segments and their number, and it
    returns an error exactly when the second segment is not valid base64url
    after padding or the map decoded from it has no `exp` key. -/
theorem jwtExpired_second_segment_only (unixNow : Int) (jwt jwt1 first first1 seg : Bytes)
    (others others1 : List Bytes)
    (hne : jwt ≠ []) (hne1 : jwt1 ≠ [])
    (hsplit : stringsSplit 46 jwt = first :: seg :: others)
    (hsplit1 : stringsSplit 46 jwt1 = first1 :: seg :: others1) :
    jwtExpired unixNow jwt ≠ .panic ∧ jwtExpired unixNow jwt = jwtExpired unixNow jwt1 ∧
    ((∃ verdict err, jwtExpired unixNow jwt = .ret (verdict, some err)) ↔
      ((∃ e, base64DecodeString (padSegment seg) = .error e) ∨
        ∃ p, base64DecodeString (padSegment seg) = .ok p ∧
          mapLookup (jsonDecodeMap intOfValue p).1 (ascii "exp") = none)) := by
  rw [jwtExpired_of_segment unixNow jwt first seg others hne hsplit,
    jwtExpired_of_segment unixNow jwt1 first1 seg others1 hne1 hsplit1]
  refine ⟨?_, rfl, ?_⟩
  · cases base64DecodeString (padSegment seg) with
    | error err => simp
    | ok p =>
      simp only []
      cases hl : mapLookup (jsonDecodeMap intOfValue p).1 (ascii "exp") <;> simp
  · cases base64DecodeString (padSegment seg) with
    | error err => simp
    | ok p =>
      simp only []
      cases hl : mapLookup (jsonDecodeMap intOfValue p).1 (ascii "exp") <;> simp [hl]

/-- C2, an instance: a two-segment and a four-segment token with the same
    second segment. -/
theorem jwtExpired_second_segment_only_witness :
    jwtExpired 0 (ascii "h.eyJleHAiOjB9") ≠ .panic ∧
    jwtExpired 0 (ascii "h.eyJleHAiOjB9") = jwtExpired 0 (ascii "x.eyJleHAiOjB9.y.z") :=
  ⟨(jwtExpired_second_segment_only 0 (ascii "h.eyJleHAiOjB9") (ascii "x.eyJleHAiOjB9.y.z")
      (ascii "h") (ascii "x") (ascii "eyJleHAiOjB9") [] [ascii "y", ascii "z"]
      (by decide) (by decide) (by decide) (by decide)).1,
   (jwtExpired_second_segment_only 0 (ascii "h.eyJleHAiOjB9") (ascii "x.eyJleHAiOjB9.y.z")
      (ascii "h") (ascii "x") (ascii "eyJleHAiOjB9") [] [ascii "y", ascii "z"]
      (by decide) (by decide) (by decide) (by decide)).2.1⟩

/-- C2 as stated fails: a token of two segments and a token of four
    segments, each with the payload `{"exp":0}` in second place, get a
    verdict with a nil error and no `MalformedToken` error. -/
theorem jwtExpired_segment_count_counterexample :
    (stringsSplit 46 (ascii "h.eyJleHAiOjB9")).length = 2 ∧
    jwtExpired 0 (ascii "h.eyJleHAiOjB9") = .ret (true, none) ∧
    (stringsSplit 46 (ascii "x.eyJleHAiOjB9.y.z")).length = 4 ∧
    jwtExpired 0 (ascii "x.eyJleHAiOjB9.y.z") = .ret (true, none) := by
  decide

/-- C3 (amended): for every non-empty three-segment token, `jwtExpired`
    returns an error when the payload segment is not valid base64url after
    padding, when no JSON object can be read from the decoded payload, and
    when the object has no `exp` member. When the object has an `exp` member
    that is not an integer literal in 64-bit range (a string, say), no error
    is returned: the expiry is taken to be 0. -/
theorem jwtExpired_malformed_payload (unixNow : Int) (jwt first seg last : Bytes)
    (hne : jwt ≠ []) (hsplit : stringsSplit 46 jwt = [first, seg, last]) :
    ((∃ e, base64DecodeString (padSegment seg) = .error e) →
      ∃ err, jwtExpired unixNow jwt = .ret (true, some err)) ∧
    (∀ payload, base64DecodeString (padSegment seg) = .ok payload →
      ((∀ ms, jsonReadValue payload ≠ some (.obj ms)) →
        jwtExpired unixNow jwt = .ret (true, some expNotFound)) ∧
      (∀ ms, jsonReadValue payload = some (.obj ms) → lastMember (ascii "exp") ms = none →
        jwtExpired unixNow jwt = .ret (true, some expNotFound)) ∧
      (∀ ms v, jsonReadValue payload = some (.obj ms) →
        lastMember (ascii "exp") ms = some v → (∀ lit, v = .num lit → parseInt lit = none) →
        jwtExpired unixNow jwt = .ret (decide (0 ≤ wrap64 (unixNow + 30)), none))) := by
  rw [jwtExpired_of_segment unixNow jwt first seg [last] hne hsplit]
  refine ⟨?_, ?_⟩
  · rintro ⟨e, he⟩
    exact ⟨e, by simp [he]⟩
  · intro payload hp
    simp only [hp]
    refine ⟨?_, ?_, ?_⟩
    · intro hno
      simp [lookup_exp_of_not_object payload hno]
    · intro ms hobj hexp
      simp [lookup_exp_of_object payload ms hobj, hexp]
    · intro ms v hobj hexp hv
      simp [lookup_exp_of_object payload ms hobj, hexp, intOfValue_not_integer v hv]

/-- C3, an instance: the token `a.b.c`, whose payload segment is not valid
    base64url. -/
theorem jwtExpired_malformed_payload_witness :
    ∃ err, jwtExpired 0 (ascii "a.b.c") = .ret (true, some err) :=
  (jwtExpired_malformed_payload 0 (ascii "a.b.c") (ascii "a") (ascii "b") (ascii "c")
    (by decide) (by decide)).1 ⟨.corruptInput, by decide⟩

/-- C3 as stated fails: the payload `{"exp":"x"}`, whose `exp` is a JSON
    string, gets the verdict `true` with a nil error. -/
theorem jwtExpired_string_exp_counterexample :
    stringsSplit 46 (ascii "a.eyJleHAiOiJ4In0.c") = [ascii "a", ascii "eyJleHAiOiJ4In0", ascii "c"] ∧
    base64DecodeString (padSegment (ascii "eyJleHAiOiJ4In0")) = .ok (ascii "\x7b\"exp\":\"x\"\x7d") ∧
    jsonReadValue (ascii "\x7b\"exp\":\"x\"\x7d") = some (.obj [(ascii "exp", .str (ascii "x"))]) ∧
    jwtExpired 0 (ascii "a.eyJleHAiOiJ4In0.c") = .ret (true, none) :=
  ⟨by decide, by decide, by rfl, by decide⟩

/-- C7 (amended): for every status code `s` and message `m`, `constructError`
    on a response with status `s` whose body is the JSON object
    `{"error": m}` produces the error whose text is exactly
    `bigbucket -- <s>: <m>`, the status in decimal. -/
theorem constructError_text (s : Int) (m body : Bytes)
    (hbody : jsonReadValue body = some (.obj [(ascii "error", .str m)])) :
    constructError ⟨s, body⟩ =
      .errorsNew (ascii "bigbucket -- " ++ fmtInt s ++ ascii ": " ++ m) := by
  rw [constructError_of_object s body _ hbody (by simp)]
  simp [lastMember, stringOfValue]

/-- C7, an instance: status 404 and the body `{"error": "table not found"}`. -/
theorem constructError_text_witness :
    constructError ⟨404, ascii "\x7b\"error\": \"table not found\"\x7d"⟩ =
      .errorsNew (ascii "bigbucket -- " ++ fmtInt 404 ++ ascii ": " ++ ascii "table not found") :=
  constructError_text 404 (ascii "table not found") (ascii "\x7b\"error\": \"table not found\"\x7d")
    (by rfl)

/-- C7 as stated fails: for status 404 and the body
    `{"error": "table not found"}` the text is
    `bigbucket -- 404: table not found`, not `404: table not found`. -/
theorem constructError_text_counterexample :
    constructError ⟨404, ascii "\x7b\"error\": \"table not found\"\x7d"⟩ =
      .errorsNew (ascii "bigbucket -- 404: table not found") ∧
    constructError ⟨404, ascii "\x7b\"error\": \"table not found\"\x7d"⟩ ≠
      .errorsNew (ascii "404: table not found") := by
  decide

/-- C8 (amended): `constructError` returns the decode failure for every
    response from whose body no JSON value can be read, and for every body
    whose value is neither an object nor `null`. For a body that is a JSON
    object of string members without an `"error"` member (the body `{}`, say)
    it returns the formatted error with an empty message,
    `bigbucket -- <s>: `. -/
theorem constructError_decode_failure (s : Int) (body : Bytes) :
    (jsonReadValue body = none → constructError ⟨s, body⟩ = .jsonRead) ∧
    (∀ v, jsonReadValue body = some v → (∀ ms, v ≠ .obj ms) → v ≠ .null →
      constructError ⟨s, body⟩ = .jsonType) ∧
    (∀ ms, jsonReadValue body = some (.obj ms) → (∀ kv ∈ ms, ∃ t, kv.2 = .str t) →
      lastMember (ascii "error") ms = none →
      constructError ⟨s, body⟩ = .errorsNew (ascii "bigbucket -- " ++ fmtInt s ++ ascii ": ")) := by
  refine ⟨?_, ?_, ?_⟩
  · intro h
    simp [constructError, jsonDecodeMap, h]
  · intro v h hobj hnull
    cases v with
    | obj ms => exact absurd rfl (hobj ms)
    | null => exact absurd rfl hnull
    | _ => simp [constructError, jsonDecodeMap, h]
  · intro ms h hstr hlast
    rw [constructError_of_object s body ms h hstr, hlast]
    simp

/-- C8, three instances: a body that is no JSON, a body that is a JSON
    array, and the body `{}`. -/
theorem constructError_decode_failure_witness :
    constructError ⟨500, ascii "<html>"⟩ = .jsonRead ∧
    constructError ⟨500, ascii "[1]"⟩ = .jsonType ∧
    constructError ⟨500, ascii "\x7b\x7d"⟩ =
      .errorsNew (ascii "bigbucket -- " ++ fmtInt 500 ++ ascii ": ") :=
  ⟨(constructError_decode_failure 500 (ascii "<html>")).1 (by rfl),
   (constructError_decode_failure 500 (ascii "[1]")).2.1 (.arr [.num (ascii "1")]) (by rfl)
     (by simp) (by simp),
   (constructError_decode_failure 500 (ascii "\x7b\x7d")).2.2 [] (by rfl) (by simp) (by rfl)⟩

/-- C8 as stated fails: for the body `{}`, a valid JSON object without the
    `"error"` field, `constructError` returns the formatted error
    `bigbucket -- 404: ` and no decode failure. -/
theorem constructError_missing_field_counterexample :
    jsonReadValue (ascii "\x7b\x7d") = some (.obj []) ∧
    constructError ⟨404, ascii "\x7b\x7d"⟩ = .errorsNew (ascii "bigbucket -- 404: ") :=
  ⟨by rfl, by decide⟩

/-! ### Headers of the dispatched request -/

theorem headerGet_headerSet (h : Header) (k v : Bytes) :
    headerGet (headerSet h k v) k = some v := by
  simp [headerGet, headerSet, mapLookup_mapSet]

theorem mapLookup_setHeaders_other (headers : GoMap Bytes) (h : Header) (c : Bytes)
    (hc : ∀ kv ∈ headers, canonicalMIMEHeaderKey kv.1 ≠ c) :
    mapLookup (setHeaders headers h) c = mapLookup h c := by
  induction headers generalizing h with
  | nil => rfl
  | cons kv rest ih =>
    have h1 : canonicalMIMEHeaderKey kv.1 ≠ c := hc kv (by simp)
    have h2 := ih (headerSet h kv.1 kv.2) (fun e he => hc e (by simp [he]))
    simp only [setHeaders, List.foldl_cons] at h2 ⊢
    rw [h2, headerSet, mapLookup_mapSet]
    simp [h1]

theorem mapLookup_setHeaders_mem (headers : GoMap Bytes) (h : Header) (k v : Bytes)
    (hd : (headers.map (fun kv => canonicalMIMEHeaderKey kv.1)).Nodup)
    (hm : (k, v) ∈ headers) :
    mapLookup (setHeaders headers h) (canonicalMIMEHeaderKey k) = some v := by
  induction headers generalizing h with
  | nil => simp at hm
  | cons kv rest ih =>
    rw [List.map_cons, List.nodup_cons] at hd
    rcases List.mem_cons.mp hm with heq | hrest
    · subst heq
      have hother : ∀ e ∈ rest, canonicalMIMEHeaderKey e.1 ≠ canonicalMIMEHeaderKey k := by
        intro e he heq
        exact hd.1 (List.mem_map.mpr ⟨e, he, heq⟩)
      have := mapLookup_setHeaders_other rest (headerSet h k v) (canonicalMIMEHeaderKey k) hother
      simp only [setHeaders, List.foldl_cons] at this ⊢
      rw [this, headerSet, mapLookup_mapSet]
      simp
    · have := ih (headerSet h kv.1 kv.2) hd.2 hrest
      simpa only [setHeaders, List.foldl_cons] using this

/-- Every request that `httpRequest` dispatches carries the configured
    headers on top of what the executor set. -/
theorem httpRequest_sent_header (w : World) (method path : Bytes) (client : Client)
    (params body : Option (GoMap Bytes)) (run : Run) (req : Request)
    (hrun : httpRequest w method client path params body = .ret run)
    (hsent : run.sent = some req) :
    ∃ base, req.header = setHeaders client.headers base := by
  cases hurl : constructUrl client.address path params with
  | error e =>
    simp only [httpRequest, hurl, Outcome.ret.injEq] at hrun
    subst hrun
    simp at hsent
  | ok httpUrl =>
    cases hreq : newRequest method httpUrl body with
    | error e =>
      simp only [httpRequest, hurl, hreq, Outcome.ret.injEq] at hrun
      subst hrun
      simp at hsent
    | ok req0 =>
      by_cases hauth : client.gcpAuth = true
      · cases hj : jwtExpired w.unixNow client.jwt with
        | panic => simp [httpRequest, hurl, hreq, hauth, hj] at hrun
        | ret p =>
          obtain ⟨expired, oerr⟩ := p
          cases oerr with
          | some err =>
            simp only [httpRequest, hurl, hreq, hauth, hj, if_true, Outcome.ret.injEq] at hrun
            subst hrun
            simp at hsent
          | none =>
            cases expired with
            | true =>
              cases hg : getGcpAuthToken w client.address with
              | error e =>
                simp only [httpRequest, hurl, hreq, hauth, hj, hg, if_true,
                  Outcome.ret.injEq] at hrun
                subst hrun
                simp at hsent
              | ok token =>
                simp only [httpRequest, hurl, hreq, hauth, hj, hg, if_true,
                  Outcome.ret.injEq] at hrun
                subst hrun
                simp only [dispatch, Option.some.injEq] at hsent
                exact ⟨_, by rw [← hsent]⟩
            | false =>
              simp only [httpRequest, hurl, hreq, hauth, hj, if_true, Bool.false_eq_true,
                if_false, Outcome.ret.injEq] at hrun
              subst hrun
              simp only [dispatch, Option.some.injEq] at hsent
              exact ⟨_, by rw [← hsent]⟩
      · simp only [httpRequest, hurl, hreq, hauth, if_false, Bool.false_eq_true,
          Outcome.ret.injEq] at hrun
        subst hrun
        simp only [dispatch, Option.some.injEq] at hsent
        exact ⟨_, by rw [← hsent]⟩

/-! ### httpRequest: C4 -/

theorem intOfValue_nonzero (v : JValue) (e : Int) (h : (intOfValue v).1 = e) (he : e ≠ 0) :
    ∃ lit, v = .num lit ∧ parseInt lit = some e := by
  cases v with
  | num lit =>
    refine ⟨lit, rfl, ?_⟩
    cases hp : parseInt lit with
    | none => simp [intOfValue, hp] at h; exact absurd h.symm he
    | some n => simp [intOfValue, hp] at h; rw [h]
  | _ => exact absurd h.symm he

theorem tokenExp_of_not_expired (unixNow : Int) (jwt : Bytes)
    (hclock : 0 ≤ unixNow ∧ unixNow + 30 < 2 ^ 63)
    (h : jwtExpired unixNow jwt = .ret (false, none)) :
    ∃ e, tokenExp jwt = some e ∧ unixNow + 30 < e := by
  have hw : wrap64 (unixNow + 30) = unixNow + 30 :=
    wrap64_of_range _ (by omega) hclock.2
  by_cases hne : jwt = []
  · subst hne
    simp [jwtExpired] at h
  · cases hs : (stringsSplit 46 jwt)[1]? with
    | none => simp [jwtExpired, hne, hs] at h
    | some seg =>
      cases hd : base64DecodeString (padSegment seg) with
      | error err => simp [jwtExpired, hne, hs, hd] at h
      | ok payload =>
        cases hl : mapLookup (jsonDecodeMap intOfValue payload).1 (ascii "exp") with
        | none => simp [jwtExpired, hne, hs, hd, hl] at h
        | some expiry =>
          simp only [jwtExpired, hne, hs, hd, hl, if_false, hw, Outcome.ret.injEq,
            Prod.mk.injEq, decide_eq_false_iff_not, and_true, not_le] at h
          cases hr : jsonReadValue payload with
          | none => simp [jsonDecodeMap, hr, mapLookup] at hl
          | some v =>
            cases v with
            | obj ms =>
              rw [lookup_exp_of_object payload ms hr] at hl
              cases hm : lastMember (ascii "exp") ms with
              | none => simp [hm] at hl
              | some x =>
                simp only [hm, Option.map_some', Option.some.injEq] at hl
                obtain ⟨lit, hx, hp⟩ := intOfValue_nonzero x expiry hl (by omega)
                subst hx
                exact ⟨expiry, by simp [tokenExp, hs, hd, hr, hm, hp], h⟩
            | null => simp [jsonDecodeMap, hr, mapLookup] at hl
            | bool b => simp [jsonDecodeMap, hr, mapLookup] at hl
            | num l => simp [jsonDecodeMap, hr, mapLookup] at hl
            | str l => simp [jsonDecodeMap, hr, mapLookup] at hl
            | arr l => simp [jsonDecodeMap, hr, mapLookup] at hl

/-- C4: with authentication enabled, the request built and a well-formed
    cached token, `httpRequest` returns and: if `jwtExpired` reports the token
    expired, `getGcpAuthToken` is called exactly once, with the client's
    address, and when it succeeds its token is stored in the client and
    `Authorization: bearer <fetched token>` is set on the request before the
    configured headers; if the token is not expired, `getGcpAuthToken` is not
    called, the client is unchanged and `Authorization: bearer <cached token>`
    is set. Where no configured header is named `Authorization`, that is the
    header of the dispatched request. -/
theorem httpRequest_token_cache (w : World) (method path : Bytes) (client : Client)
    (params body : Option (GoMap Bytes)) (httpUrl : Bytes) (req0 : Request) (expired : Bool)
    (hauth : client.gcpAuth = true)
    (hurl : constructUrl client.address path params = .ok httpUrl)
    (hreq : newRequest method httpUrl body = .ok req0)
    (hjwt : jwtExpired w.unixNow client.jwt = .ret (expired, none)) :
    ∃ run, httpRequest w method client path params body = .ret run ∧
      (expired = true →
        run.fetches = [client.address] ∧
        ∀ token, getGcpAuthToken w client.address = .ok token →
          run.client = { client with jwt := token } ∧
          ∃ req base, run.sent = some req ∧
            req.header = setHeaders client.headers
              (headerSet base (ascii "Authorization") (ascii "bearer " ++ token)) ∧
            ((∀ kv ∈ client.headers, canonicalMIMEHeaderKey kv.1 ≠ ascii "Authorization") →
              headerGet req.header (ascii "Authorization") = some (ascii "bearer " ++ token))) ∧
      (expired = false →
        run.fetches = [] ∧ run.client = client ∧
          ∃ req base, run.sent = some req ∧
            req.header = setHeaders client.headers
              (headerSet base (ascii "Authorization") (ascii "bearer " ++ client.jwt)) ∧
            ((∀ kv ∈ client.headers, canonicalMIMEHeaderKey kv.1 ≠ ascii "Authorization") →
              headerGet req.header (ascii "Authorization") =
                some (ascii "bearer " ++ client.jwt))) := by
  have hcanon : canonicalMIMEHeaderKey (ascii "Authorization") = ascii "Authorization" := by
    decide
  have hget : ∀ (base : Header) (tok : Bytes),
      (∀ kv ∈ client.headers, canonicalMIMEHeaderKey kv.1 ≠ ascii "Authorization") →
      headerGet (setHeaders client.headers
        (headerSet base (ascii "Authorization") (ascii "bearer " ++ tok)))
        (ascii "Authorization") = some (ascii "bearer " ++ tok) := by
    intro base tok hno
    unfold headerGet
    rw [hcanon, mapLookup_setHeaders_other _ _ _ hno]
    have := headerGet_headerSet base (ascii "Authorization") (ascii "bearer " ++ tok)
    simpa [headerGet, hcanon] using this
  cases expired with
  | true =>
    cases hg : getGcpAuthToken w client.address with
    | error e =>
      refine ⟨_, by simp only [httpRequest, hurl, hreq]; rw [if_pos hauth]
                    simp only [hjwt, hg, if_true]; rfl, ?_, by simp⟩
      intro _
      exact ⟨rfl, fun token ht => by cases ht⟩
    | ok tok =>
      refine ⟨_, by simp only [httpRequest, hurl, hreq]; rw [if_pos hauth]
                    simp only [hjwt, hg, if_true]; rfl, ?_, by simp⟩
      intro _
      refine ⟨rfl, ?_⟩
      intro token ht
      cases ht
      exact ⟨rfl, _, _, rfl, rfl, hget _ _⟩
  | false =>
    refine ⟨_, by simp only [httpRequest, hurl, hreq]; rw [if_pos hauth]
                  simp only [hjwt, Bool.false_eq_true, if_false]; rfl, by simp, ?_⟩
    intro _
    exact ⟨rfl, rfl, _, _, rfl, rfl, hget _ _⟩

/-! ### httpRequest: C5 -/

/-- C4, two instances: the empty cached token is refreshed by one fetch, a
    cached token that is still fresh is reused without a fetch. -/
theorem httpRequest_token_cache_witness :
    (∃ run, httpRequest (exampleWorld 1699999000 exampleToken) (ascii "GET")
        (exampleClient [] []) (ascii "/api/table") none none = .ret run ∧
      run.fetches = [ascii "http://localhost:8080"] ∧
      run.client = exampleClient [] exampleToken) ∧
    (∃ run, httpRequest (exampleWorld 1699999000 []) (ascii "GET")
        (exampleClient [] exampleToken) (ascii "/api/table") none none = .ret run ∧
      run.fetches = [] ∧ run.client = exampleClient [] exampleToken) := by
  constructor
  · obtain ⟨run, hrun, hexp, _⟩ :=
      httpRequest_token_cache (exampleWorld 1699999000 exampleToken) (ascii "GET")
        (ascii "/api/table") (exampleClient [] []) none none
        (ascii "http://localhost:8080/api/table")
        { method := ascii "GET", url := ascii "http://localhost:8080/api/table", header := [],
          body := none }
        true (by decide!) (by decide!) (by decide!) (by decide!)
    exact ⟨run, hrun, (hexp rfl).1, ((hexp rfl).2 exampleToken (by decide!)).1⟩
  · obtain ⟨run, hrun, _, hfresh⟩ :=
      httpRequest_token_cache (exampleWorld 1699999000 []) (ascii "GET")
        (ascii "/api/table") (exampleClient [] exampleToken) none none
        (ascii "http://localhost:8080/api/table")
        { method := ascii "GET", url := ascii "http://localhost:8080/api/table", header := [],
          body := none }
        false (by decide!) (by decide!) (by decide!) (by decide!)
    exact ⟨run, hrun, (hfresh rfl).1, (hfresh rfl).2.1⟩

/-- C5 (amended): with authentication enabled and the request built, when
    `jwtExpired` fails on the cached token `httpRequest` returns that error to
    the caller at once: `getGcpAuthToken` is not called, the client keeps its
    token and no request is dispatched. -/
theorem httpRequest_malformed_token (w : World) (method path : Bytes) (client : Client)
    (params body : Option (GoMap Bytes)) (httpUrl : Bytes) (req0 : Request) (verdict : Bool)
    (err : GoError)
    (hauth : client.gcpAuth = true)
    (hurl : constructUrl client.address path params = .ok httpUrl)
    (hreq : newRequest method httpUrl body = .ok req0)
    (hjwt : jwtExpired w.unixNow client.jwt = .ret (verdict, some err)) :
    httpRequest w method client path params body =
      .ret { client := client, fetches := [], sent := none, result := .error err } := by
  simp only [httpRequest, hurl, hreq]
  rw [if_pos hauth]
  simp only [hjwt]

/-- C5, an instance: the cached token `a.b.c`. -/
theorem httpRequest_malformed_token_witness :
    httpRequest (exampleWorld 0 exampleToken) (ascii "GET") (exampleClient [] (ascii "a.b.c"))
        (ascii "/api/table") none none =
      .ret { client := exampleClient [] (ascii "a.b.c"), fetches := [], sent := none,
             result := .error .corruptInput } :=
  httpRequest_malformed_token (exampleWorld 0 exampleToken) (ascii "GET") (ascii "/api/table")
    (exampleClient [] (ascii "a.b.c")) none none (ascii "http://localhost:8080/api/table")
    { method := ascii "GET", url := ascii "http://localhost:8080/api/table", header := [],
      body := none }
    true .corruptInput (by decide!) (by decide!) (by decide!) (by decide!)

/-- C5 as stated fails: with the malformed cached token `a.b.c` and a
    metadata service that would answer with a well-formed fresh token,
    `httpRequest` returns the decode error and calls no fetch. -/
theorem httpRequest_malformed_token_counterexample :
    jwtExpired 0 (ascii "a.b.c") = .ret (true, some .corruptInput) ∧
    getGcpAuthToken (exampleWorld 0 exampleToken) (ascii "http://localhost:8080") =
      .ok exampleToken ∧
    jwtExpired 0 exampleToken = .ret (false, none) ∧
    httpRequest (exampleWorld 0 exampleToken) (ascii "GET") (exampleClient [] (ascii "a.b.c"))
        (ascii "/api/table") none none =
      .ret { client := exampleClient [] (ascii "a.b.c"), fetches := [], sent := none,
             result := .error .corruptInput } := by
  decide!

/-! ### httpRequest: C6, C9 -/

/-- C6 (amended): with authentication enabled and a clock value from 0 up
    to `2^63 - 31`, whenever `httpRequest` dispatches a request without
    having called `getGcpAuthToken`, the token it set in the `Authorization`
    header is the cached one, the client is unchanged, and that token carries
    an `exp` claim strictly greater than `now + 30`. (A token that was just
    fetched is attached as the metadata service sent it.) -/
theorem httpRequest_cached_token_fresh (w : World) (method path : Bytes) (client : Client)
    (params body : Option (GoMap Bytes)) (run : Run) (req : Request)
    (hauth : client.gcpAuth = true)
    (hclock : 0 ≤ w.unixNow ∧ w.unixNow + 30 < 2 ^ 63)
    (hrun : httpRequest w method client path params body = .ret run)
    (hsent : run.sent = some req)
    (hcached : run.fetches = []) :
    run.client = client ∧
    (∃ base, req.header = setHeaders client.headers
      (headerSet base (ascii "Authorization") (ascii "bearer " ++ client.jwt))) ∧
    ∃ e, tokenExp client.jwt = some e ∧ w.unixNow + 30 < e := by
  cases hurl : constructUrl client.address path params with
  | error e =>
    simp only [httpRequest, hurl, Outcome.ret.injEq] at hrun
    subst hrun
    simp at hsent
  | ok httpUrl =>
    cases hreq : newRequest method httpUrl body with
    | error e =>
      simp only [httpRequest, hurl, hreq, Outcome.ret.injEq] at hrun
      subst hrun
      simp at hsent
    | ok req0 =>
      simp only [httpRequest, hurl, hreq] at hrun
      rw [if_pos hauth] at hrun
      cases hj : jwtExpired w.unixNow client.jwt with
      | panic => simp [hj] at hrun
      | ret p =>
        obtain ⟨expired, oerr⟩ := p
        cases oerr with
        | some err =>
          simp only [hj, Outcome.ret.injEq] at hrun
          subst hrun
          simp at hsent
        | none =>
          cases expired with
          | true =>
            cases hg : getGcpAuthToken w client.address with
            | error e =>
              simp only [hj, hg, if_true, Outcome.ret.injEq] at hrun
              subst hrun
              simp at hsent
            | ok token =>
              simp only [hj, hg, if_true, Outcome.ret.injEq] at hrun
              subst hrun
              simp [dispatch] at hcached
          | false =>
            simp only [hj, Bool.false_eq_true, if_false, Outcome.ret.injEq] at hrun
            subst hrun
            simp only [dispatch, Option.some.injEq] at hsent
            exact ⟨rfl, ⟨_, by rw [← hsent]⟩, tokenExp_of_not_expired w.unixNow client.jwt hclock hj⟩

/-- C6, an instance: a request at time 1699999000 with a cached token whose
    `exp` is 1700000000. -/
theorem httpRequest_cached_token_fresh_witness :
    ∃ e, tokenExp exampleToken = some e ∧ (1699999000 : Int) + 30 < e :=
  (httpRequest_cached_token_fresh (exampleWorld 1699999000 []) (ascii "GET") (ascii "/api/table")
    (exampleClient [] exampleToken) none none
    { client := exampleClient [] exampleToken, fetches := [],
      sent := some { method := ascii "GET", url := ascii "http://localhost:8080/api/table",
                     header := [(ascii "Authorization", ascii "bearer " ++ exampleToken)],
                     body := none },
      result := .ok ⟨200, []⟩ }
    { method := ascii "GET", url := ascii "http://localhost:8080/api/table",
      header := [(ascii "Authorization", ascii "bearer " ++ exampleToken)], body := none }
    (by decide!) (by decide!) (by decide!) (by rfl) (by rfl)).2.2

/-- C6 as stated fails: with no cached token and a metadata service that
    answers with a token whose `exp` is 0 (or with text that is no token at
    all), `httpRequest` at time 1000 attaches that token, whose `exp` claim
    is not greater than `1000 + 30`. -/
theorem httpRequest_fetched_token_counterexample :
    httpRequest (exampleWorld 1000 (ascii "h.eyJleHAiOjB9.s")) (ascii "GET") (exampleClient [] [])
        (ascii "/api/table") none none =
      .ret { client := exampleClient [] (ascii "h.eyJleHAiOjB9.s"),
             fetches := [ascii "http://localhost:8080"],
             sent := some { method := ascii "GET", url := ascii "http://localhost:8080/api/table",
                            header := [(ascii "Authorization", ascii "bearer h.eyJleHAiOjB9.s")],
                            body := none },
             result := .ok ⟨200, []⟩ } ∧
    tokenExp (ascii "h.eyJleHAiOjB9.s") = some 0 ∧ ¬ ((1000 : Int) + 30 < 0) ∧
    httpRequest (exampleWorld 1000 (ascii "Not Found")) (ascii "GET") (exampleClient [] [])
        (ascii "/api/table") none none =
      .ret { client := exampleClient [] (ascii "Not Found"),
             fetches := [ascii "http://localhost:8080"],
             sent := some { method := ascii "GET", url := ascii "http://localhost:8080/api/table",
                            header := [(ascii "Authorization", ascii "bearer Not Found")],
                            body := none },
             result := .ok ⟨200, []⟩ } ∧
    tokenExp (ascii "Not Found") = none := by
  decide!

/-- C9 (amended): for every client whose configured header names have
    pairwise distinct canonical forms, every request that `httpRequest`
    dispatches carries each configured header `h` with its value `v`, also
    when `h` is `Authorization` with authentication enabled or
    `Content-Type` with a body supplied: the configured value replaces the
    one the executor set. -/
theorem httpRequest_configured_headers (w : World) (method path : Bytes) (client : Client)
    (params body : Option (GoMap Bytes)) (run : Run) (req : Request) (h v : Bytes)
    (hdistinct : (client.headers.map (fun kv => canonicalMIMEHeaderKey kv.1)).Nodup)
    (hmem : (h, v) ∈ client.headers)
    (hrun : httpRequest w method client path params body = .ret run)
    (hsent : run.sent = some req) :
    headerGet req.header h = some v := by
  obtain ⟨base, hbase⟩ := httpRequest_sent_header w method path client params body run req hrun hsent
  rw [headerGet, hbase]
  exact mapLookup_setHeaders_mem client.headers base h v hdistinct hmem

/-- C9, an instance: the configured header `authorization: Basic abc`
    replaces the bearer token of an authenticated request with a body. -/
theorem httpRequest_configured_headers_witness :
    headerGet [(ascii "Content-Type", ascii "text/plain"), (ascii "Authorization", ascii "Basic abc")]
      (ascii "authorization") = some (ascii "Basic abc") :=
  httpRequest_configured_headers (exampleWorld 1699999000 []) (ascii "POST") (ascii "/api/row")
    (exampleClient [(ascii "authorization", ascii "Basic abc"),
      (ascii "Content-Type", ascii "text/plain")] exampleToken)
    none (some [(ascii "col", ascii "val")])
    { client := exampleClient [(ascii "authorization", ascii "Basic abc"),
        (ascii "Content-Type", ascii "text/plain")] exampleToken,
      fetches := [],
      sent := some { method := ascii "POST", url := ascii "http://localhost:8080/api/row",
                     header := [(ascii "Content-Type", ascii "text/plain"),
                       (ascii "Authorization", ascii "Basic abc")],
                     body := some [(ascii "col", ascii "val")] },
      result := .ok ⟨200, []⟩ }
    { method := ascii "POST", url := ascii "http://localhost:8080/api/row",
      header := [(ascii "Content-Type", ascii "text/plain"),
        (ascii "Authorization", ascii "Basic abc")],
      body := some [(ascii "col", ascii "val")] }
    (ascii "authorization") (ascii "Basic abc")
    (by decide!) (by decide!) (by decide!) (by rfl)

/-- C9 as stated fails: a client configured with the two headers
    `X-Foo: 2` and `x-foo: 1`, visited in this order, dispatches a request
    whose `X-Foo` header is `1`, so the configured header `X-Foo` with value
    `2` is not carried. -/
theorem httpRequest_configured_headers_counterexample :
    (ascii "X-Foo", ascii "2") ∈
      (exampleClient [(ascii "X-Foo", ascii "2"), (ascii "x-foo", ascii "1")] exampleToken).headers ∧
    httpRequest (exampleWorld 1699999000 []) (ascii "GET")
        (exampleClient [(ascii "X-Foo", ascii "2"), (ascii "x-foo", ascii "1")] exampleToken)
        (ascii "/api/table") none none =
      .ret { client := exampleClient [(ascii "X-Foo", ascii "2"), (ascii "x-foo", ascii "1")]
               exampleToken,
             fetches := [],
             sent := some { method := ascii "GET", url := ascii "http://localhost:8080/api/table",
                            header := [(ascii "X-Foo", ascii "1"),
                              (ascii "Authorization", ascii "bearer " ++ exampleToken)],
                            body := none },
             result := .ok ⟨200, []⟩ } ∧
    headerGet [(ascii "X-Foo", ascii "1"), (ascii "Authorization", ascii "bearer " ++ exampleToken)]
      (ascii "X-Foo") = some (ascii "1") ∧
    ascii "1" ≠ ascii "2" := by
  decide!

/-! ### net/url: escaping and unescaping -/

theorem isAlnum_range (b : Nat) (h : isAlnum b = true) :
    (97 ≤ b ∧ b ≤ 122) ∨ (65 ≤ b ∧ b ≤ 90) ∨ (48 ≤ b ∧ b ≤ 57) := by
  simpa [isAlnum, or_assoc] using h

theorem cutByte_not_mem (sep : Nat) (s : Bytes) (h : sep ∉ s) : cutByte sep s = (s, none) := by
  induction s with
  | nil => rfl
  | cons c cs ih =>
    have hc : c ≠ sep := fun e => h (by simp [e])
    have ih' := ih (fun hm => h (by simp [hm]))
    simp [cutByte, hc, ih']

theorem cutByte_append (sep : Nat) (a b : Bytes) (h : sep ∉ a) :
    cutByte sep (a ++ sep :: b) = (a, some b) := by
  induction a with
  | nil => simp [cutByte]
  | cons c cs ih =>
    have hc : c ≠ sep := fun e => h (by simp [e])
    have ih' := ih (fun hm => h (by simp [hm]))
    simp [cutByte, hc, ih']

theorem getSchemeLoop_run (raw : Bytes) (s rest pre : Bytes)
    (hraw : raw = pre ++ s ++ 58 :: rest)
    (hs : ∀ b ∈ s, isAlnum b = true ∨ b = 43 ∨ b = 45 ∨ b = 46)
    (hfirst : pre = [] → ∃ c t, s = c :: t ∧ ((97 ≤ c ∧ c ≤ 122) ∨ (65 ≤ c ∧ c ≤ 90))) :
    getSchemeLoop raw pre.length (s ++ 58 :: rest) = some (pre ++ s, rest) := by
  induction s generalizing pre with
  | nil =>
    have hpre : pre ≠ [] := by
      intro h
      obtain ⟨c, t, hct, _⟩ := hfirst h
      cases hct
    have hlen : pre.length ≠ 0 := by
      intro h
      exact hpre (List.length_eq_zero.mp h)
    simp only [List.nil_append, getSchemeLoop]
    simp [hlen, hraw]
  | cons c t ih =>
    have hc := hs c (by simp)
    have ih' := ih (pre ++ [c]) (by simp [hraw]) (fun b hb => hs b (by simp [hb]))
      (fun h => by simp at h)
    simp only [List.length_append, List.length_singleton, List.append_assoc,
      List.singleton_append] at ih'
    simp only [List.cons_append, getSchemeLoop]
    by_cases halpha : (97 ≤ c ∧ c ≤ 122) ∨ (65 ≤ c ∧ c ≤ 90)
    · rw [if_pos halpha]
      exact ih'
    · rw [if_neg halpha]
      have hpre : pre.length ≠ 0 := by
        intro h
        obtain ⟨c1, t1, hct, hal⟩ := hfirst (List.length_eq_zero.mp h)
        cases hct
        exact halpha hal
      have hdig : (48 ≤ c ∧ c ≤ 57) ∨ c = 43 ∨ c = 45 ∨ c = 46 := by
        rcases hc with h | h
        · have := isAlnum_range c h
          omega
        · omega
      rw [if_pos hdig, if_neg hpre]
      exact ih'

theorem getScheme_of_isScheme (scheme rest : Bytes) (h : isScheme scheme = true) :
    getScheme (scheme ++ 58 :: rest) = some (scheme, rest) := by
  have := getSchemeLoop_run (scheme ++ 58 :: rest) scheme rest [] (by simp)
    (by
      intro b hb
      cases scheme with
      | nil => simp at hb
      | cons c cs =>
        simp only [isScheme, Bool.and_eq_true, List.all_eq_true] at h
        rcases List.mem_cons.mp hb with e | e
        · left
          subst e
          have := h.1
          simp only [Bool.or_eq_true, Bool.and_eq_true, decide_eq_true_eq] at this
          simp only [isAlnum, Bool.or_eq_true, Bool.and_eq_true, decide_eq_true_eq]
          omega
        · have := h.2 b e
          simpa [or_assoc] using this)
    (by
      intro _
      cases scheme with
      | nil => simp [isScheme] at h
      | cons c cs =>
        simp only [isScheme, Bool.and_eq_true] at h
        refine ⟨c, cs, rfl, ?_⟩
        simpa using h.1)
  simpa [getScheme] using this

/-! ### net/url: hosts -/

theorem scheme_bytes (scheme : Bytes) (h : isScheme scheme = true) (b : Nat) (hb : b ∈ scheme) :
    32 ≤ b ∧ b ≠ 127 ∧ b ≠ 63 ∧ b ≠ 35 := by
  cases scheme with
  | nil => simp at hb
  | cons c cs =>
    simp only [isScheme, Bool.and_eq_true, List.all_eq_true, Bool.or_eq_true,
      decide_eq_true_eq] at h
    rcases List.mem_cons.mp hb with e | e
    · subst e
      have := h.1
      omega
    · rcases h.2 b e with ((ha | h1) | h1) | h1
      · have := isAlnum_range b ha
        omega
      all_goals omega

theorem toLowerAscii_ne_nil (s : Bytes) (h : s ≠ []) : toLowerAscii s ≠ [] := by
  cases s with
  | nil => exact absurd rfl h
  | cons c cs => simp [toLowerAscii]

theorem isScheme_ne_nil (s : Bytes) (h : isScheme s = true) : s ≠ [] := by
  intro e
  subst e
  simp [isScheme] at h

theorem cut_authority (host path1 : Bytes) (h47 : 47 ∉ host)
    (hhead : path1 = [] ∨ path1.head? = some 47) :
    (cutByte 47 (host ++ path1)).1 = host := by
  rcases hhead with e | e
  · subst e
    rw [List.append_nil, cutByte_not_mem 47 host h47]
  · cases path1 with
    | nil => simp at e
    | cons c t =>
      simp only [List.head?_cons, Option.some.injEq] at e
      subst e
      rw [cutByte_append 47 host t h47]

/-! ### net/url: queries -/

theorem stringsSplit_not_mem (sep : Nat) (p : Bytes) (h : sep ∉ p) : stringsSplit sep p = [p] := by
  induction p with
  | nil => rfl
  | cons c cs ih =>
    have hc : c ≠ sep := fun e => h (by simp [e])
    simp [stringsSplit, hc, ih (fun hm => h (by simp [hm]))]

theorem stringsSplit_append (sep : Nat) (p rest : Bytes) (h : sep ∉ p) :
    stringsSplit sep (p ++ sep :: rest) = p :: stringsSplit sep rest := by
  induction p with
  | nil => simp [stringsSplit]
  | cons c cs ih =>
    have hc : c ≠ sep := fun e => h (by simp [e])
    simp [stringsSplit, hc, ih (fun hm => h (by simp [hm]))]

theorem drop_cutByte_mem (sep : Nat) (s : Bytes) (b : Nat)
    (hb : b ∈ s.drop (cutByte sep s).1.length) : b ∈ s :=
  List.mem_of_mem_drop hb

/-! ### net/url: what a successful parse tells -/

/-- The query of a printed URL is split off as it was printed, also when it
    is empty after a forced `?` or holds a `?` itself. -/
theorem query_split_any (pre Q : Bytes) (f : Bool) (hpre : 63 ∉ pre) :
    (if (decide ((pre ++ (if f = true ∨ Q ≠ [] then 63 :: Q else [])).getLast? = some 63) &&
          decide ((pre ++ (if f = true ∨ Q ≠ [] then 63 :: Q else [])).count 63 = 1)) = true
        then (pre ++ (if f = true ∨ Q ≠ [] then 63 :: Q else [])).dropLast
        else (cutByte 63 (pre ++ (if f = true ∨ Q ≠ [] then 63 :: Q else []))).1) = pre ∧
    (if (decide ((pre ++ (if f = true ∨ Q ≠ [] then 63 :: Q else [])).getLast? = some 63) &&
          decide ((pre ++ (if f = true ∨ Q ≠ [] then 63 :: Q else [])).count 63 = 1)) = true
        then []
        else ((cutByte 63 (pre ++ (if f = true ∨ Q ≠ [] then 63 :: Q else []))).2).getD []) =
      Q := by
  have hcount : pre.count 63 = 0 := List.count_eq_zero.mpr hpre
  by_cases hq : Q = []
  · subst hq
    by_cases hf : f = true
    · have e : (if f = true ∨ ([] : Bytes) ≠ [] then 63 :: ([] : Bytes) else []) = [63] := by
        simp [hf]
      rw [e]
      have hforced : (decide ((pre ++ [63]).getLast? = some 63) &&
          decide ((pre ++ [63]).count 63 = 1)) = true := by
        simp [hcount]
      rw [if_pos hforced, if_pos hforced]
      simp
    · have e : (if f = true ∨ ([] : Bytes) ≠ [] then 63 :: ([] : Bytes) else []) = [] := by
        simp [hf]
      rw [e, List.append_nil]
      have hforced : ¬ (decide (pre.getLast? = some 63) && decide (pre.count 63 = 1)) = true := by
        simp [hcount]
      rw [if_neg hforced, if_neg hforced, cutByte_not_mem 63 pre hpre]
      exact ⟨rfl, rfl⟩
  · have e : (if f = true ∨ Q ≠ [] then 63 :: Q else []) = 63 :: Q := by
      simp [hq]
    rw [e]
    have hforced : ¬ (decide ((pre ++ 63 :: Q).getLast? = some 63) &&
        decide ((pre ++ 63 :: Q).count 63 = 1)) = true := by
      simp only [Bool.and_eq_true, decide_eq_true_eq, not_and]
      intro hlast hc
      cases Q with
      | nil => exact hq rfl
      | cons q qs =>
        have e2 : pre ++ 63 :: q :: qs = (pre ++ [63]) ++ (q :: qs) := by simp
        rw [e2, List.getLast?_append] at hlast
        have hsome : (q :: qs).getLast? = some ((q :: qs).getLast (by simp)) :=
          List.getLast?_eq_getLast _ _
        rw [hsome] at hlast
        simp only [Option.or, Option.some.injEq] at hlast
        have hm : (q :: qs).getLast (by simp) ∈ q :: qs := List.getLast_mem _
        rw [hlast] at hm
        have hpos : 0 < (q :: qs).count 63 := List.count_pos_iff.mpr hm
        rw [List.count_append, List.count_cons_self] at hc
        omega
    rw [if_neg hforced, if_neg hforced, cutByte_append 63 pre Q hpre]
    exact ⟨rfl, rfl⟩

/-- The parse of a printed URL without its fragment: a scheme, a colon, a
    body that is an opaque text, an authority followed by a path, or a path
    alone, and a query. -/
theorem parseNoFragment_printed (s body Q P : Bytes) (f : Bool)
    (hs : isScheme s = true)
    (hbody : ∀ b ∈ body, 32 ≤ b ∧ b ≠ 127 ∧ b ≠ 63)
    (hQ : ∀ b ∈ Q, 32 ≤ b ∧ b ≠ 127)
    (hshape :
      (body.head? ≠ some 47 ∧ P = []) ∨
      (∃ auth EP, body = 47 :: 47 :: (auth ++ EP) ∧ 47 ∉ auth ∧
        (EP = [] ∨ EP.head? = some 47) ∧ (parseAuthority auth).isSome = true ∧
        unescape .encodePath EP = some P) ∨
      (body.head? = some 47 ∧ startsWith [47, 47] body = false ∧
        unescape .encodePath body = some P)) :
    ∃ back, parseNoFragment (s ++ 58 :: (body ++ (if f = true ∨ Q ≠ [] then 63 :: Q else [])))
      = some back ∧ back.path = P ∧ back.rawQuery = Q := by
  have h63 : 63 ∉ body := fun h => (hbody 63 h).2.2 rfl
  obtain ⟨hsplit1, hsplit2⟩ := query_split_any body Q f h63
  have hctl : (s ++ 58 :: (body ++ (if f = true ∨ Q ≠ [] then 63 :: Q else []))).any
      (fun b => decide (b < 32) || decide (b = 127)) = false := by
    rw [List.any_eq_false]
    intro b hb
    have hb2 : 32 ≤ b ∧ b ≠ 127 := by
      simp only [List.mem_append, List.mem_cons] at hb
      rcases hb with h | h | h | h
      · have := scheme_bytes s hs b h
        omega
      · omega
      · have := hbody b h
        omega
      · split at h
        · simp only [List.mem_cons] at h
          rcases h with h | h
          · omega
          · exact hQ b h
        · simp at h
    simp only [Bool.or_eq_true, decide_eq_true_eq, not_or, not_lt]
    omega
  have hne42 : s ++ 58 :: (body ++ (if f = true ∨ Q ≠ [] then 63 :: Q else [])) ≠ [42] := by
    cases s with
    | nil => simp [isScheme] at hs
    | cons c cs => simp
  have hlow : toLowerAscii s ≠ [] := toLowerAscii_ne_nil _ (isScheme_ne_nil _ hs)
  unfold parseNoFragment
  rw [hctl, getScheme_of_isScheme s _ hs]
  simp only [Bool.false_eq_true, if_false, hne42, hsplit1, hsplit2]
  rcases hshape with ⟨hhead, hP⟩ | ⟨auth, EP, hb, h47, hEP, hauth, hun⟩ | ⟨hhead, hsw, hun⟩
  · rw [if_pos ⟨hhead, hlow⟩]
    exact ⟨_, rfl, hP.symm, rfl⟩
  · subst hb
    have hsw : startsWith [47, 47] (47 :: 47 :: (auth ++ EP)) = true := by
      simp [startsWith]
    have hcut := cut_authority auth EP h47 hEP
    cases hpa : parseAuthority auth with
    | none => simp [hpa] at hauth
    | some uh =>
      obtain ⟨user, host⟩ := uh
      simp only [List.head?_cons, ne_eq, not_true_eq_false, false_and, if_false, hlow,
        not_false_eq_true, true_or, true_and, hsw, if_true, List.drop_succ_cons, List.drop_zero,
        hcut, List.drop_left, hpa, setPath, hun]
      exact ⟨_, rfl, rfl, rfl⟩
  · simp only [hhead, ne_eq, not_true_eq_false, false_and, if_false, hlow, not_false_eq_true,
      true_or, true_and, hsw, Bool.false_eq_true, and_true, if_true, setPath, hun]
    exact ⟨_, rfl, rfl, rfl⟩

/-- Putting back the fragment does not change what the parse finds for
    the path and the query. -/
theorem urlParse_printed (text EF : Bytes) (hasFrag : Prop) [Decidable hasFrag] (back0 : URL)
    (h35 : 35 ∉ text) (hparse : parseNoFragment text = some back0)
    (hEF : (unescape .encodeFragment EF).isSome = true) :
    ∃ back, urlParse (text ++ (if hasFrag then 35 :: EF else [])) = some back ∧
      back.path = back0.path ∧ back.rawQuery = back0.rawQuery := by
  unfold urlParse
  by_cases hf : hasFrag
  · rw [if_pos hf, cutByte_append 35 text EF h35]
    simp only [hparse]
    split
    · exact ⟨_, rfl, rfl, rfl⟩
    · cases hu : unescape .encodeFragment EF with
      | none => simp [hu] at hEF
      | some fr =>
        simp only [setFragment, hu]
        exact ⟨_, rfl, rfl, rfl⟩
  · rw [if_neg hf, List.append_nil, cutByte_not_mem 35 text h35]
    exact ⟨_, hparse, rfl, rfl⟩

/-! ### net/url: the parts that `URL.String` prints -/

/-- `constructUrl` fails exactly when `url.Parse` rejects the address. -/
theorem constructUrl_error_iff (address path : Bytes) (params : Option (GoMap Bytes)) :
    (∃ e, constructUrl address path params = .error e) ↔ urlParse address = none := by
  unfold constructUrl
  cases h : urlParse address with
  | none => simp
  | some u => simp

/-- The addresses of the usual form are accepted: a scheme, `://`, an
    authority that `parseAuthority` reads, a path that is empty or starts
    with `/` and can be unescaped, then optionally `?` and a query, and `#`
    and a fragment that can be unescaped. -/
theorem urlParse_accepts (s auth EP Q frag : Bytes) (hasQuery hasFragment : Bool)
    (hs : isScheme s = true)
    (hauth : ∀ b ∈ auth, 32 ≤ b ∧ b ≠ 127 ∧ b ≠ 63 ∧ b ≠ 35 ∧ b ≠ 47)
    (hpa : (parseAuthority auth).isSome = true)
    (hEP : EP = [] ∨ EP.head? = some 47)
    (hEPb : ∀ b ∈ EP, 32 ≤ b ∧ b ≠ 127 ∧ b ≠ 63 ∧ b ≠ 35)
    (hun : (unescape .encodePath EP).isSome = true)
    (hQ : ∀ b ∈ Q, 32 ≤ b ∧ b ≠ 127 ∧ b ≠ 35)
    (hfrag : (unescape .encodeFragment frag).isSome = true) :
    (urlParse ((s ++ 58 :: ((47 :: 47 :: (auth ++ EP)) ++
        (if hasQuery = true ∨ Q ≠ [] then 63 :: Q else []))) ++
      (if hasFragment = true then 35 :: frag else []))).isSome = true := by
  cases hP : unescape .encodePath EP with
  | none => simp [hP] at hun
  | some P =>
    have hbody : ∀ b ∈ 47 :: 47 :: (auth ++ EP), 32 ≤ b ∧ b ≠ 127 ∧ b ≠ 63 ∧ b ≠ 35 := by
      intro b hb
      simp only [List.mem_cons, List.mem_append] at hb
      rcases hb with h | h | h | h
      · omega
      · omega
      · have := hauth b h
        omega
      · exact hEPb b h
    obtain ⟨back0, hp0, _, _⟩ := parseNoFragment_printed s (47 :: 47 :: (auth ++ EP)) Q P hasQuery
      hs (fun b hb => ⟨(hbody b hb).1, (hbody b hb).2.1, (hbody b hb).2.2.1⟩)
      (fun b hb => ⟨(hQ b hb).1, (hQ b hb).2.1⟩)
      (Or.inr (Or.inl ⟨auth, EP, rfl, fun h => (hauth 47 h).2.2.2.2 rfl, hEP, hpa, hP⟩))
    have h35 : 35 ∉ s ++ 58 :: ((47 :: 47 :: (auth ++ EP)) ++
        (if hasQuery = true ∨ Q ≠ [] then 63 :: Q else [])) := by
      intro hm
      simp only [List.mem_append, List.mem_cons] at hm
      rcases hm with h | h | h | h
      · exact (scheme_bytes _ hs 35 h).2.2.2 rfl
      · omega
      · exact (hbody 35 (by simpa using h)).2.2.2 rfl
      · split at h
        · rcases List.mem_cons.mp h with e | e
          · omega
          · exact (hQ 35 e).2.2 rfl
        · simp at h
    obtain ⟨back, hb1, _, _⟩ := urlParse_printed _ frag (hasFragment = true) back0 h35 hp0 hfrag
    rw [hb1]
    rfl

/-! ### constructUrl: C10 -/

/-- A non-empty token without a dot makes `jwtExpired` panic: the index 1
    is out of range for the one-element result of `strings.Split`. -/
theorem jwtExpired_no_dot_panics (unixNow : Int) (jwt : Bytes) (hne : jwt ≠ [])
    (hdot : 46 ∉ jwt) : jwtExpired unixNow jwt = .panic := by
  unfold jwtExpired
  rw [if_neg hne, stringsSplit_not_mem 46 jwt hdot]
  rfl

/-! ### Families of inputs: the reader on literal objects -/

theorem scanRun_inString_plain (m raw : Bytes) (st : List Frame) (rest : Bytes)
    (hm : ∀ b ∈ m, 32 ≤ b ∧ b ≠ 34 ∧ b ≠ 92) :
    scanRun (.inString raw) st (m ++ rest) = scanRun (.inString (raw ++ m)) st rest := by
  induction m generalizing raw with
  | nil => simp
  | cons c m ih =>
    have hc := hm c (by simp)
    have h34 : ¬ c = 34 := hc.2.1
    have h92 : ¬ c = 92 := hc.2.2
    have h32 : ¬ c < 32 := by omega
    rw [List.cons_append, scanRun]
    simp only [step, h34, h92, h32, if_false]
    rw [ih (raw ++ [c]) (fun b hb => hm b (by simp [hb]))]
    simp

theorem unquoteLoop_plain (m : Bytes) (hm : ∀ b ∈ m, 32 ≤ b ∧ b < 128 ∧ b ≠ 34 ∧ b ≠ 92) :
    unquoteLoop 0 m = some m := by
  induction m with
  | nil => rfl
  | cons c m ih =>
    have hc := hm c (by simp)
    have h34 : ¬ (c = 34 ∨ c < 32) := by omega
    have h92 : ¬ c = 92 := hc.2.2.2
    rw [unquoteLoop]
    simp [h34, h92, hc.2.1, ih (fun b hb => hm b (by simp [hb]))]

/-- The reader on the text `{"error": "m"}` for a message of printable
    ASCII characters other than the quote and the backslash. -/
theorem jsonReadValue_error_object (m : Bytes)
    (hm : ∀ b ∈ m, 32 ≤ b ∧ b < 128 ∧ b ≠ 34 ∧ b ≠ 92) :
    jsonReadValue (ascii "\x7b\"error\": \"" ++ m ++ ascii "\"\x7d") =
      some (.obj [(ascii "error", .str m)]) := by
  have hpre : ∀ rest : Bytes, scanRun .beginValue [] (ascii "\x7b\"error\": \"" ++ rest) =
      scanRun (.inString []) [Frame.objectValue [] (some (ascii "error"))] rest := by
    intro rest
    rfl
  have hsuf : ∀ raw : Bytes, unquote raw = some m →
      scanRun (.inString raw) [Frame.objectValue [] (some (ascii "error"))] (ascii "\"\x7d") =
        some (.obj [(ascii "error", .str m)]) := by
    intro raw hraw
    have e : ascii "\"\x7d" = [34, 125] := by decide
    rw [e]
    simp [scanRun, step, hraw, deliver, stateEndValue, isSpace]
  unfold jsonReadValue
  rw [List.append_assoc, hpre,
    scanRun_inString_plain m [] _ _ (fun b hb => ⟨(hm b hb).1, (hm b hb).2.2.1, (hm b hb).2.2.2⟩)]
  exact hsuf _ (by simpa [unquote] using unquoteLoop_plain m hm)

/-- The text of `constructError` on the body `{"error": "m"}`, for every
    status and every message of printable ASCII characters other than the
    quote and the backslash. -/
theorem constructError_text_plain (s : Int) (m : Bytes)
    (hm : ∀ b ∈ m, 32 ≤ b ∧ b < 128 ∧ b ≠ 34 ∧ b ≠ 92) :
    constructError ⟨s, ascii "\x7b\"error\": \"" ++ m ++ ascii "\"\x7d"⟩ =
      .errorsNew (ascii "bigbucket -- " ++ fmtInt s ++ ascii ": " ++ m) := by
  rw [constructError_of_object s _ _ (jsonReadValue_error_object m hm) (by simp)]
  simp [lastMember, stringOfValue]

theorem scanRun_num1_digits (ds acc : Bytes) (st : List Frame) (rest : Bytes)
    (hds : ∀ b ∈ ds, 48 ≤ b ∧ b ≤ 57) :
    scanRun (.num1 acc) st (ds ++ rest) = scanRun (.num1 (acc ++ ds)) st rest := by
  induction ds generalizing acc with
  | nil => simp
  | cons c ds ih =>
    have hc := hds c (by simp)
    rw [List.cons_append, scanRun]
    simp only [step, hc, and_self, if_true]
    rw [ih (acc ++ [c]) (fun b hb => hds b (by simp [hb]))]
    simp

/-- The reader on the text `{"exp":<lit>}` for an integer literal without
    sign and without leading zero. -/
theorem jsonReadValue_exp_object (d : Nat) (ds : Bytes) (hd : 49 ≤ d ∧ d ≤ 57)
    (hds : ∀ b ∈ ds, 48 ≤ b ∧ b ≤ 57) :
    jsonReadValue (ascii "\x7b\"exp\":" ++ (d :: ds) ++ ascii "\x7d") =
      some (.obj [(ascii "exp", .num (d :: ds))]) := by
  have hpre : ∀ rest : Bytes, scanRun .beginValue [] (ascii "\x7b\"exp\":" ++ rest) =
      scanRun .beginValue [Frame.objectValue [] (some (ascii "exp"))] rest := by
    intro rest
    rfl
  have hfirst : ∀ rest : Bytes,
      scanRun .beginValue [Frame.objectValue [] (some (ascii "exp"))] (d :: rest) =
        scanRun (.num1 [d]) [Frame.objectValue [] (some (ascii "exp"))] rest := by
    intro rest
    have h1 : isSpace d = false := by
      simp only [isSpace, Bool.or_eq_false_iff, decide_eq_false_iff_not]
      omega
    have h2 : ¬ d = 123 ∧ ¬ d = 91 ∧ ¬ d = 34 ∧ ¬ d = 45 ∧ ¬ d = 48 ∧ ¬ d = 116 ∧ ¬ d = 102 ∧
        ¬ d = 110 := by omega
    rw [scanRun]
    simp [step, stateBeginValue, h1, h2, hd]
  have hsuf : ∀ lit : Bytes,
      scanRun (.num1 lit) [Frame.objectValue [] (some (ascii "exp"))] (ascii "\x7d") =
        some (.obj [(ascii "exp", .num lit)]) := by
    intro lit
    have e : ascii "\x7d" = [125] := by decide
    rw [e]
    simp [scanRun, step, state0, endNumber, deliver, stateEndValue, isSpace]
  unfold jsonReadValue
  rw [List.append_assoc, hpre, List.cons_append, hfirst, scanRun_num1_digits ds [d] _ _ hds]
  exact hsuf _

theorem base64Encode_chars (bs : Bytes) (h : ∀ b ∈ bs, b < 256) :
    ∀ c ∈ base64Encode bs, c = 61 ∨ ∃ i, i < 64 ∧ c = b64Char i := by
  induction bs using base64Encode.induct with
  | case1 => simp [base64Encode]
  | case2 x =>
    have hx : x < 256 := h x (by simp)
    intro c hc
    simp only [base64Encode, List.mem_cons, List.mem_singleton, List.not_mem_nil, or_false] at hc
    rcases hc with rfl | rfl | rfl | rfl
    · exact Or.inr ⟨_, by omega, rfl⟩
    · exact Or.inr ⟨_, by omega, rfl⟩
    · exact Or.inl rfl
    · exact Or.inl rfl
  | case3 x y =>
    have hx : x < 256 := h x (by simp)
    have hy : y < 256 := h y (by simp)
    intro c hc
    simp only [base64Encode, List.mem_cons, List.mem_singleton, List.not_mem_nil, or_false] at hc
    rcases hc with rfl | rfl | rfl | rfl
    · exact Or.inr ⟨_, by omega, rfl⟩
    · exact Or.inr ⟨_, by omega, rfl⟩
    · exact Or.inr ⟨_, by omega, rfl⟩
    · exact Or.inl rfl
  | case4 x y z rest ih =>
    have hx : x < 256 := h x (by simp)
    have hy : y < 256 := h y (by simp)
    have hz : z < 256 := h z (by simp)
    have ih' := ih (fun b hb => h b (by simp [hb]))
    intro c hc
    simp only [base64Encode, List.mem_cons] at hc
    rcases hc with rfl | rfl | rfl | rfl | hc
    · exact Or.inr ⟨_, by omega, rfl⟩
    · exact Or.inr ⟨_, by omega, rfl⟩
    · exact Or.inr ⟨_, by omega, rfl⟩
    · exact Or.inr ⟨_, by omega, rfl⟩
    · exact ih' c hc

theorem b64Char_ne_dot : ∀ i : Fin 64, b64Char i ≠ 46 := by decide

theorem base64Encode_length (bs : Bytes) : (base64Encode bs).length % 4 = 0 := by
  induction bs using base64Encode.induct with
  | case1 => rfl
  | case2 x => simp [base64Encode]
  | case3 x y => simp [base64Encode]
  | case4 x y z rest ih =>
    simp only [base64Encode, List.length_cons]
    omega

theorem padSegment_base64Encode (bs : Bytes) : padSegment (base64Encode bs) = base64Encode bs := by
  simp [padSegment, base64Encode_length]

/-- End to end: for every clock value and every integer literal `lit`
    (digits, no leading zero) of value `e` below `2^63`, the token
    `h.<base64url of {"exp":lit}>.s` is expired exactly when
    `e ≤ now + 30`, the sum in 64 bits. -/
theorem jwtExpired_exp_literal (unixNow : Int) (d : Nat) (ds : Bytes) (e : Int)
    (hd : 49 ≤ d ∧ d ≤ 57) (hds : ∀ b ∈ ds, 48 ≤ b ∧ b ≤ 57)
    (hint : parseInt (d :: ds) = some e) :
    jwtExpired unixNow
        (ascii "h." ++ base64Encode (ascii "\x7b\"exp\":" ++ (d :: ds) ++ ascii "\x7d") ++ ascii ".s") =
      .ret (decide (e ≤ wrap64 (unixNow + 30)), none) := by
  have hbytes : ∀ b ∈ ascii "\x7b\"exp\":" ++ (d :: ds) ++ ascii "\x7d", b < 256 := by
    intro b hb
    simp only [List.mem_append, List.mem_cons] at hb
    rcases hb with (h | h | h) | h
    · have : ∀ x ∈ ascii "\x7b\"exp\":", x < 256 := by decide
      exact this b h
    · omega
    · have := hds b h
      omega
    · have : ∀ x ∈ ascii "\x7d", x < 256 := by decide
      exact this b h
  have hdot : 46 ∉ base64Encode (ascii "\x7b\"exp\":" ++ (d :: ds) ++ ascii "\x7d") := by
    intro hm
    rcases base64Encode_chars _ hbytes 46 hm with h | ⟨i, hi, h⟩
    · omega
    · exact b64Char_ne_dot ⟨i, hi⟩ h.symm
  have hsplit : stringsSplit 46
      (ascii "h." ++ base64Encode (ascii "\x7b\"exp\":" ++ (d :: ds) ++ ascii "\x7d") ++ ascii ".s") =
      ascii "h" :: base64Encode (ascii "\x7b\"exp\":" ++ (d :: ds) ++ ascii "\x7d") ::
        [ascii "s"] := by
    have e1 : ascii "h." = ascii "h" ++ [46] := by decide
    have e2 : ascii ".s" = 46 :: ascii "s" := by decide
    have e3 : stringsSplit 46 (ascii "s") = [ascii "s"] := by decide
    have e4 : (46 : Nat) ∉ ascii "h" := by decide
    rw [e1, e2, List.append_assoc, List.append_assoc, List.singleton_append,
      stringsSplit_append 46 _ _ e4, stringsSplit_append 46 _ _ hdot, e3]
  have hne : ascii "h." ++ base64Encode (ascii "\x7b\"exp\":" ++ (d :: ds) ++ ascii "\x7d") ++
      ascii ".s" ≠ [] := by
    have e1 : ascii "h." = 104 :: [46] := by decide
    rw [e1]
    simp
  rw [jwtExpired_of_segment unixNow _ _ _ _ hne hsplit, padSegment_base64Encode,
    base64DecodeString_encode _ hbytes]
  simp only [lookup_exp_of_object _ _ (jsonReadValue_exp_object d ds hd hds), lastMember,
    if_true, Option.map_some', intOfValue, hint]

end Bigbucket
